import Mathlib

/-!
# sonarqube-redmine-issues-importer

A shallow embedding of `main.go` and theorems about its pagination arithmetic,
its subject / description formatters, its duration parser, the issue
transformer and the import loop of `run`.

Conventions of the embedding.

* A Go `string` is a sequence of bytes: `GoString = List UInt8`.  `len(s)` is
  `s.length`, `s[i:]` is `s.drop i`, `s[:i]` is `s.take i`.
* `uint64` values are natural numbers; arithmetic on them is reduced modulo
  `2 ^ 64` where the Go code computes on `uint64`.  `int` is the 64-bit signed
  integer of the usual targets (amd64, arm64), `time.Duration` is an `int64`
  count of nanoseconds; both are integers, wrapped explicitly.
* `float64` values are the exact rationals that the Go expression denotes;
  rounding is not part of the model.
* Standard-library and remote behaviour whose results the program only passes
  on (`url.Parse`, `http.Get`, `json.Unmarshal`, `json.Marshal`,
  `http.NewRequest`, `http.Client.Do`) is a parameter (`World`).
* `time.ParseDuration` is a parameter of `getDuration` and of
  `transformToRedmineIssue`; `ParseDuration` is a model of it after the library.
  The lexer, parser and executor of the fragment of `text/template` that the
  two templates use are modelled after the library.
* The command line is read before the model starts: `run` takes the search URL
  and the `redmineFlags`.  `log.Println` output is not part of the model.
-/

namespace SonarqubeRedmine

deriving instance DecidableEq for Except

/-! ## Go strings -/

/-- A Go string: an immutable sequence of bytes. -/
abbrev GoString := List UInt8

/-- The UTF-8 encoding of one code point. -/
def utf8Bytes (c : Char) : List UInt8 :=
  let n := c.toNat
  if n < 0x80 then [UInt8.ofNat n]
  else if n < 0x800 then [UInt8.ofNat (0xC0 + n / 0x40), UInt8.ofNat (0x80 + n % 0x40)]
  else if n < 0x10000 then
    [UInt8.ofNat (0xE0 + n / 0x1000), UInt8.ofNat (0x80 + n / 0x40 % 0x40),
     UInt8.ofNat (0x80 + n % 0x40)]
  else
    [UInt8.ofNat (0xF0 + n / 0x40000), UInt8.ofNat (0x80 + n / 0x1000 % 0x40),
     UInt8.ofNat (0x80 + n / 0x40 % 0x40), UInt8.ofNat (0x80 + n % 0x40)]

/-- The bytes of a sequence of code points (UTF-8). -/
def encodeChars : List Char → GoString
  | [] => []
  | c :: cs => utf8Bytes c ++ encodeChars cs

/-- A Go string literal: the UTF-8 bytes of the source text. -/
def go (s : String) : GoString := encodeChars s.data

/-- The decimal digits of a natural number, most significant first, with `fuel`
bounding the number of digits. -/
def digitsAux : Nat → Nat → GoString → GoString
  | 0, _, acc => acc
  | fuel + 1, n, acc =>
    if n < 10 then UInt8.ofNat (48 + n) :: acc
    else digitsAux fuel (n / 10) (UInt8.ofNat (48 + n % 10) :: acc)

/-- Decimal rendering of an unsigned integer (`strconv.FormatUint(n, 10)`). -/
def formatUint (n : Nat) : GoString := digitsAux (n + 1) n []

/-- Decimal rendering of a signed integer (`strconv.Itoa`). -/
def Itoa (i : Int) : GoString :=
  if i < 0 then go "-" ++ formatUint i.natAbs else formatUint i.natAbs

/-! ## Machine integers -/

/-- The `uint64` modulus. -/
def uint64Mod : Nat := 2 ^ 64

/-- The largest `int` (64-bit). -/
def maxInt : Int := 2 ^ 63 - 1

/-- The smallest `int` (64-bit). -/
def minInt : Int := -(2 ^ 63)

/-- The conversion `int(x)` of a `uint64`: the two's complement reading of the bits. -/
def toInt (x : Nat) : Int :=
  if x % uint64Mod < 2 ^ 63 then (x % uint64Mod : Nat) else ((x % uint64Mod : Nat) : Int) - 2 ^ 64

/-- The increment `i++` of an `int`, which wraps around. -/
def incInt (i : Int) : Int := if i = maxInt then minInt else i + 1

/-! ## Data model -/

structure SonarqubeTextRange where
  StartLine : Nat
  EndLine : Nat
  StartOffset : Nat
  EndOffset : Nat
  deriving DecidableEq, Repr

structure SonarqubeLocation where
  Component : GoString
  TextRange : SonarqubeTextRange
  Message : GoString
  deriving DecidableEq, Repr

structure SonarqubeFlow where
  Locations : List SonarqubeLocation
  deriving DecidableEq, Repr

structure SonarqubeIssue where
  Key : GoString
  Rule : GoString
  Severity : GoString
  Component : GoString
  Project : GoString
  Line : Nat
  Hash : GoString
  TextRange : SonarqubeTextRange
  Flows : List SonarqubeFlow
  Status : GoString
  Message : GoString
  Effort : GoString
  Debt : GoString
  Tags : List GoString
  CreationDate : GoString
  UpdateDate : GoString
  /-- The Go field `Type` (a reserved word here). -/
  IssueType : GoString
  deriving DecidableEq, Repr

structure SonarqubePaging where
  PageIndex : Nat
  PageSize : Nat
  Total : Nat
  deriving DecidableEq, Repr

structure SonarqubeResponse where
  Paging : SonarqubePaging
  Issues : List SonarqubeIssue
  deriving DecidableEq, Repr

/-- The fields of a paging block are `uint64` values. -/
def SonarqubePaging.WF (p : SonarqubePaging) : Prop :=
  p.PageIndex < uint64Mod ∧ p.PageSize < uint64Mod ∧ p.Total < uint64Mod

/-- One element of `RedmineIssue.CustomFields`. -/
structure CustomField where
  Id : GoString
  Value : GoString
  deriving DecidableEq, Repr

structure RedmineIssue where
  ProjectId : GoString
  TrackerId : GoString
  StatusId : GoString
  PriorityId : GoString
  Subject : GoString
  Description : GoString
  ParentIssueId : GoString
  EstimatedHours : ℚ
  CustomFields : List CustomField
  deriving DecidableEq, Repr

structure RedmineRequest where
  Issue : RedmineIssue
  deriving DecidableEq, Repr

structure redmineFlags where
  URL : GoString
  apiKey : GoString
  projectId : GoString
  trackerId : GoString
  parentIssueId : GoString
  deriving DecidableEq, Repr

/-! ## Pagination arithmetic -/

/-- The statement `numPages := Total/PageSize + 1` of `run`, on `uint64`: the
division faults when `PageSize` is zero, the addition wraps. -/
def numPages (p : SonarqubePaging) : Option Nat :=
  if p.PageSize = 0 then none else some ((p.Total / p.PageSize + 1) % uint64Mod)

/-! ## strings.LastIndex -/

/-- Scan of `strings.LastIndex`: `pos` is the index of the head of the remaining
input, `best` the index of the last match seen so far. -/
def lastIndexFrom (substr : GoString) : GoString → Nat → Int → Int
  | [], pos, best => if substr = [] then (pos : Int) else best
  | c :: rest, pos, best =>
    lastIndexFrom substr rest (pos + 1) (if substr.isPrefixOf (c :: rest) then (pos : Int) else best)

/-- Go's `strings.LastIndex(s, substr)`: the index of the last instance of
`substr` in `s`, or `-1` if `substr` is not present in `s`. -/
def LastIndex (s substr : GoString) : Int := lastIndexFrom substr s 0 (-1)

/-! ## text/template

The fragment of `text/template` that the two templates of the program use:
literal text, field chains on the dot, a function applied to arguments, and
`range` over a slice of strings whose body holds no nested `range`. -/

/-- An operand of a command. -/
inductive Arg where
  | dot
  | field (path : List String)
  deriving DecidableEq, Repr

/-- A command whose value is printed. -/
inductive Cmd where
  | arg (a : Arg)
  | call (fn : String) (args : List Arg)
  deriving DecidableEq, Repr

/-- A node without children. -/
inductive Item where
  | text (s : String)
  | action (c : Cmd)
  deriving DecidableEq, Repr

/-- A node of a parsed template. -/
inductive Node where
  | item (i : Item)
  | range (a : Arg) (body : List Item)
  deriving DecidableEq, Repr

/-- A lexical token: literal text, or the inside of `{{ }}`. -/
inductive Tok where
  | text (s : List Char)
  | action (s : List Char)
  deriving DecidableEq, Repr

/-- The lexer: `inAction` tells whether the input is inside `{{ }}`, `acc` holds
the characters of the current token in reverse. -/
def lexTemplate : Bool → List Char → List Char → Option (List Tok)
  | inAction, [], acc =>
    if inAction then none else some (if acc = [] then [] else [Tok.text acc.reverse])
  | inAction, [c], acc => lexTemplate inAction [] (c :: acc)
  | inAction, c :: d :: rest, acc =>
    if !inAction && c = '{' && d = '{' then
      (lexTemplate true rest []).map
        (fun ts => if acc = [] then ts else Tok.text acc.reverse :: ts)
    else if inAction && c = '}' && d = '}' then
      (lexTemplate false rest []).map (fun ts => Tok.action acc.reverse :: ts)
    else lexTemplate inAction (d :: rest) (c :: acc)

/-- Split on a separator character, dropping empty pieces when `dropEmpty`. -/
def splitOn (sep : Char) (dropEmpty : Bool) : List Char → List Char → List (List Char)
  | [], acc => if dropEmpty && acc = [] then [] else [acc.reverse]
  | c :: rest, acc =>
    if c = sep then
      (if dropEmpty && acc = [] then [] else [acc.reverse]) ++ splitOn sep dropEmpty rest []
    else splitOn sep dropEmpty rest (c :: acc)

/-- An operand: `.` or `.A.B`. -/
def parseArg (w : List Char) : Option Arg :=
  match w with
  | ['.'] => some Arg.dot
  | '.' :: rest => some (Arg.field ((splitOn '.' false rest []).map String.mk))
  | _ => none

/-- All operands of a command. -/
def parseArgs : List (List Char) → Option (List Arg)
  | [] => some []
  | w :: ws =>
    match parseArg w, parseArgs ws with
    | some a, some as => some (a :: as)
    | _, _ => none

/-- The content of one action. -/
inductive Action where
  | cmd (c : Cmd)
  | rangeStart (a : Arg)
  | endBlock
  deriving DecidableEq, Repr

/-- The parser of the inside of `{{ }}`. -/
def parseAction (s : List Char) : Option Action :=
  match splitOn ' ' true s [] with
  | [] => none
  | [w] =>
    if w = "end".data then some Action.endBlock
    else (parseArg w).map (fun a => Action.cmd (Cmd.arg a))
  | w :: ws =>
    if w = "range".data then
      match ws with
      | [x] => (parseArg x).map Action.rangeStart
      | _ => none
    else (parseArgs ws).map (fun as => Action.cmd (Cmd.call (String.mk w) as))

/-- Assemble the token stream into nodes; `open` is the `range` being read,
with its body so far in reverse. -/
def buildNodes : List Tok → Option (Arg × List Item) → Option (List Node)
  | [], none => some []
  | [], some _ => none
  | Tok.text s :: ts, none => (buildNodes ts none).map (fun ns => Node.item (Item.text (String.mk s)) :: ns)
  | Tok.text s :: ts, some (a, body) => buildNodes ts (some (a, Item.text (String.mk s) :: body))
  | Tok.action s :: ts, cur =>
    match parseAction s, cur with
    | some (Action.cmd c), none =>
      (buildNodes ts none).map (fun ns => Node.item (Item.action c) :: ns)
    | some (Action.cmd c), some (a, body) => buildNodes ts (some (a, Item.action c :: body))
    | some (Action.rangeStart a), none => buildNodes ts (some (a, []))
    | some Action.endBlock, some (a, body) =>
      (buildNodes ts none).map (fun ns => Node.range a body.reverse :: ns)
    | _, _ => none

/-- The parser `template.Parse`; `declared` holds the names of the function map,
and a call of an undeclared function is a parse error. -/
def parseTemplate (declared : List String) (src : String) : Option (List Node) :=
  match lexTemplate false src.data [] with
  | none => none
  | some toks =>
    match buildNodes toks none with
    | none => none
    | some ns =>
      let calledOf : Item → List String := fun i =>
        match i with
        | Item.action (Cmd.call f _) => [f]
        | _ => []
      let called : Node → List String := fun n =>
        match n with
        | Node.item i => calledOf i
        | Node.range _ body => body.flatMap calledOf
      if (ns.flatMap called).all (fun f => declared.contains f) then some ns else none

/-- A value that a command can produce. -/
inductive Value where
  | str (s : GoString)
  | uint (n : Nat)
  | strs (l : List GoString)
  deriving DecidableEq, Repr

/-- The cursor of a template execution. -/
inductive Dot where
  | issue (i : SonarqubeIssue)
  | value (v : Value)

/-- Field chains of a `SonarqubeIssue` with a printable value (`nil` and empty
slices are the same list). -/
def SonarqubeIssue.lookup (i : SonarqubeIssue) (path : List String) : Option Value :=
  if path = ["Key"] then some (Value.str i.Key)
  else if path = ["Rule"] then some (Value.str i.Rule)
  else if path = ["Severity"] then some (Value.str i.Severity)
  else if path = ["Component"] then some (Value.str i.Component)
  else if path = ["Project"] then some (Value.str i.Project)
  else if path = ["Line"] then some (Value.uint i.Line)
  else if path = ["Hash"] then some (Value.str i.Hash)
  else if path = ["TextRange", "StartLine"] then some (Value.uint i.TextRange.StartLine)
  else if path = ["TextRange", "EndLine"] then some (Value.uint i.TextRange.EndLine)
  else if path = ["TextRange", "StartOffset"] then some (Value.uint i.TextRange.StartOffset)
  else if path = ["TextRange", "EndOffset"] then some (Value.uint i.TextRange.EndOffset)
  else if path = ["Status"] then some (Value.str i.Status)
  else if path = ["Message"] then some (Value.str i.Message)
  else if path = ["Effort"] then some (Value.str i.Effort)
  else if path = ["Debt"] then some (Value.str i.Debt)
  else if path = ["Tags"] then some (Value.strs i.Tags)
  else if path = ["CreationDate"] then some (Value.str i.CreationDate)
  else if path = ["UpdateDate"] then some (Value.str i.UpdateDate)
  else if path = ["Type"] then some (Value.str i.IssueType)
  else none

/-- The text printed for a value (`fmt.Fprint`): strings verbatim, integers in
decimal, a slice of strings as `[a b]`. -/
def Value.print : Value → GoString
  | Value.str s => s
  | Value.uint n => formatUint n
  | Value.strs l => go "[" ++ (l.intersperse (go " ")).flatten ++ go "]"

/-- A function map: the functions a template may call. -/
abbrev FuncMap := List (String × (List Value → Except GoString Value))

/-- The value of an operand. -/
def evalArg (dot : Dot) : Arg → Except GoString Value
  | Arg.dot =>
    match dot with
    | Dot.value v => Except.ok v
    | Dot.issue _ => Except.error (go "template: printing of a struct is not modelled")
  | Arg.field path =>
    match dot with
    | Dot.issue i =>
      match i.lookup path with
      | some v => Except.ok v
      | none => Except.error (go "template: can't evaluate field")
    | Dot.value _ => Except.error (go "template: can't evaluate field")

/-- The values of a list of operands. -/
def evalArgs (dot : Dot) : List Arg → Except GoString (List Value)
  | [] => Except.ok []
  | a :: as =>
    match evalArg dot a, evalArgs dot as with
    | Except.ok v, Except.ok vs => Except.ok (v :: vs)
    | Except.error e, _ => Except.error e
    | _, Except.error e => Except.error e

/-- The value of a command. -/
def evalCmd (funcs : FuncMap) (dot : Dot) : Cmd → Except GoString Value
  | Cmd.arg a => evalArg dot a
  | Cmd.call fn args =>
    match funcs.lookup fn with
    | none => Except.error (go "template: function not defined")
    | some f =>
      match evalArgs dot args with
      | Except.ok vs => f vs
      | Except.error e => Except.error e

/-- Execute nodes without children, appending to the output `out`. -/
def execItems (funcs : FuncMap) (dot : Dot) : List Item → GoString → Except GoString GoString
  | [], out => Except.ok out
  | Item.text s :: rest, out => execItems funcs dot rest (out ++ go s)
  | Item.action c :: rest, out =>
    match evalCmd funcs dot c with
    | Except.ok v => execItems funcs dot rest (out ++ v.print)
    | Except.error e => Except.error e

/-- Execute the body of a `range` once per element. -/
def execRange (funcs : FuncMap) (body : List Item) : List GoString → GoString →
    Except GoString GoString
  | [], out => Except.ok out
  | x :: xs, out =>
    match execItems funcs (Dot.value (Value.str x)) body out with
    | Except.ok out1 => execRange funcs body xs out1
    | Except.error e => Except.error e

/-- Execute a template (`Template.Execute` into a buffer holding `out`). -/
def execNodes (funcs : FuncMap) (dot : Dot) : List Node → GoString → Except GoString GoString
  | [], out => Except.ok out
  | Node.item i :: rest, out =>
    match execItems funcs dot [i] out with
    | Except.ok out1 => execNodes funcs dot rest out1
    | Except.error e => Except.error e
  | Node.range a body :: rest, out =>
    match evalArg dot a with
    | Except.ok (Value.strs l) =>
      match execRange funcs body l out with
      | Except.ok out1 => execNodes funcs dot rest out1
      | Except.error e => Except.error e
    | Except.ok _ => Except.error (go "template: range can't iterate over value")
    | Except.error e => Except.error e

/-! ## Subject and description -/

/-- The closure `getSquid` of `getRedmineSubject`; it reads the rule of the
issue it closes over. -/
def getSquid (issue : SonarqubeIssue) : GoString :=
  let squidIndex := LastIndex issue.Rule (go ":")
  if squidIndex ≥ 0 ∧ squidIndex + 1 < (issue.Rule.length : Int) then
    issue.Rule.drop (squidIndex + 1).toNat ++ go ":"
  else []

/-- The closure `getFile` of `getRedmineSubject`; it reads the component of the
issue it closes over. -/
def getFile (issue : SonarqubeIssue) : GoString :=
  let fileIndex := LastIndex issue.Component (go "/")
  if fileIndex ≥ 0 ∧ fileIndex + 1 < (issue.Component.length : Int) then
    issue.Component.drop (fileIndex + 1).toNat
  else []

/-- A Go function of one string argument, as an entry of a function map. -/
def stringFunc (f : GoString → GoString) : List Value → Except GoString Value
  | [Value.str s] => Except.ok (Value.str (f s))
  | _ => Except.error (go "template: wrong number or type of arguments")

/-- The function map of `getRedmineSubject`. -/
def subjectFuncMap (issue : SonarqubeIssue) : FuncMap :=
  [("getSquid", stringFunc (fun _rule => getSquid issue)),
   ("getFile", stringFunc (fun _message => getFile issue))]

/-- The template text of `getRedmineSubject`. -/
def subjectTmplStr : String := "{{getSquid .Rule}} {{.Message}} - {{getFile .Component}}"

def getRedmineSubject (issue : SonarqubeIssue) : Except GoString GoString :=
  let funcMap := subjectFuncMap issue
  match parseTemplate (funcMap.map Prod.fst) subjectTmplStr with
  | none => Except.error (go "template: parse error")
  | some tmpl => execNodes funcMap (Dot.issue issue) tmpl []

/-- The template text of `getRedmineDescription`. -/
def descriptionTmplStr : String :=
  "\nMessage: {{.Message}}\n\nComponent: {{.Component}}\nLine: {{.Line}}\n\nText range:\n" ++
  "\t- start line: {{.TextRange.StartLine}}\n" ++
  "\t- end line: {{.TextRange.EndLine}}\n" ++
  "\t- start offset {{.TextRange.StartOffset}}\n" ++
  "\t- end offset {{.TextRange.EndOffset}}\t\n" ++
  "\nKey: {{.Key}}\nRule: {{.Rule}}\nType: {{.Type}}\nDebt: {{.Debt}}\nEffort: {{.Effort}}\n" ++
  "\nTags: {{range .Tags}}\n\t- {{.}}{{end}}\n"

def getRedmineDescription (issue : SonarqubeIssue) : Except GoString GoString :=
  match parseTemplate [] descriptionTmplStr with
  | none => Except.error (go "template: parse error")
  | some tmpl => execNodes [] (Dot.issue issue) tmpl []

/-! ## time.Duration and time.ParseDuration -/

/-- A `time.Duration`: a signed 64-bit count of nanoseconds. -/
abbrev Duration := Int

def Nanosecond : Duration := 1
def Microsecond : Duration := 1000 * Nanosecond
def Millisecond : Duration := 1000 * Microsecond
def Second : Duration := 1000 * Millisecond
def Minute : Duration := 60 * Second
def Hour : Duration := 60 * Minute

/-- Go's `Duration.Hours`: `float64(d / Hour) + float64(d % Hour) / (60*60*1e9)`
with Go's truncating division; the result is the exact rational value of the
expression. -/
def Duration.Hours (d : Duration) : ℚ :=
  let hour := Int.tdiv d Hour
  let nsec := Int.tmod d Hour
  (hour : ℚ) + (nsec : ℚ) / (60 * 60 * 1000000000)

/-- The errors of `time.ParseDuration`. -/
inductive ParseError where
  | invalid (orig : GoString)
  | missingUnit (orig : GoString)
  | unknownUnit (u orig : GoString)
  deriving DecidableEq, Repr

/-- The `unitMap` of package `time`: nanoseconds per unit. -/
def unitMap : List (GoString × Nat) :=
  [(go "ns", 1), (go "us", 1000), (go "µs", 1000), (go "μs", 1000), (go "ms", 1000000),
   (go "s", 1000000000), (go "m", 60000000000), (go "h", 3600000000000)]

/-- A byte in `'0'..'9'`. -/
def isDigit (c : UInt8) : Bool := 48 ≤ c && c ≤ 57

/-- The `leadingInt` of package `time`: consume `[0-9]*`, starting from the
accumulated value `x`; `none` is the overflow error. -/
def leadingInt : GoString → Nat → Option (Nat × GoString)
  | [], x => some (x, [])
  | c :: rest, x =>
    if !isDigit c then some (x, c :: rest)
    else if x > 2 ^ 63 / 10 then none
    else
      let x1 := x * 10 + c.toNat - 48
      if x1 > 2 ^ 63 then none else leadingInt rest x1

/-- The `leadingFraction` of package `time`: consume `[0-9]*` after a period,
giving the digits read as an integer and the power of ten that scales them. -/
def leadingFraction : GoString → Nat → Nat → Bool → Nat × Nat × GoString
  | [], x, scale, _ => (x, scale, [])
  | c :: rest, x, scale, overflow =>
    if !isDigit c then (x, scale, c :: rest)
    else if overflow then leadingFraction rest x scale true
    else if x > (2 ^ 63 - 1) / 10 then leadingFraction rest x scale true
    else
      let y := x * 10 + c.toNat - 48
      if y > 2 ^ 63 then leadingFraction rest x scale true
      else leadingFraction rest y (scale * 10) false

/-- The bytes of a unit: everything up to the next period or digit. -/
def unitLength : GoString → Nat
  | [] => 0
  | c :: rest => if c = 46 || isDigit c then 0 else unitLength rest + 1

/-- The step `(\.[0-9]*)?` of one round of `time.ParseDuration`: the digits `f`
after a period, their scale, the rest of the input, and whether a digit was
consumed (`post`); without a period nothing is consumed. -/
def consumeFraction (s : GoString) : Nat × Nat × GoString × Bool :=
  match s with
  | 46 :: s2 =>
    let r := leadingFraction s2 0 1 false
    (r.1, r.2.1, r.2.2, s2.length != r.2.2.length)
  | _ => (0, 1, s, false)

/-- The loop `for s != ""` of `time.ParseDuration`, with `d` the sum so far.
One round consumes at least one byte, so `fuel = len(s)` rounds always suffice;
`none` stands for running out of fuel.  The product `float64(f) *
(float64(unit) / scale)` is taken exactly and truncated. -/
def parseUnits (orig : GoString) : Nat → GoString → Nat → Option (Except ParseError Nat)
  | _, [], d => some (Except.ok d)
  | 0, _ :: _, _ => none
  | fuel + 1, c :: rest, d =>
    if !(c = 46 || isDigit c) then some (Except.error (ParseError.invalid orig))
    else
      match leadingInt (c :: rest) 0 with
      | none => some (Except.error (ParseError.invalid orig))
      | some (v, s1) =>
        let pre := (c :: rest).length != s1.length
        let frac := consumeFraction s1
        let f := frac.1
        let scale := frac.2.1
        let s3 := frac.2.2.1
        let post := frac.2.2.2
        if !pre && !post then some (Except.error (ParseError.invalid orig))
        else
          let i := unitLength s3
          if i = 0 then some (Except.error (ParseError.missingUnit orig))
          else
            let u := s3.take i
            let s4 := s3.drop i
            match unitMap.lookup u with
            | none => some (Except.error (ParseError.unknownUnit u orig))
            | some unit =>
              if v > 2 ^ 63 / unit then some (Except.error (ParseError.invalid orig))
              else
                let v1 := v * unit
                let v2 := if f > 0 then v1 + f * unit / scale else v1
                if f > 0 ∧ v2 > 2 ^ 63 then some (Except.error (ParseError.invalid orig))
                else
                  let d1 := (d + v2) % uint64Mod
                  if d1 > 2 ^ 63 then some (Except.error (ParseError.invalid orig))
                  else parseUnits orig fuel s4 d1

/-- Go's `time.ParseDuration` (the standard library's parser of strings such as
`"300ms"`, `"-1.5h"` or `"2h45m"`). -/
def ParseDuration (orig : GoString) : Except ParseError Duration :=
  let neg := orig.head? = some 45
  let s := if orig.head? = some 45 ∨ orig.head? = some 43 then orig.tail else orig
  if s = go "0" then Except.ok 0
  else if s = [] then Except.error (ParseError.invalid orig)
  else
    match parseUnits orig s.length s 0 with
    | none => Except.error (ParseError.invalid orig)
    | some (Except.error e) => Except.error e
    | some (Except.ok d) =>
      if neg then Except.ok (-(d : Int))
      else if d > 2 ^ 63 - 1 then Except.error (ParseError.invalid orig)
      else Except.ok (d : Int)

/-! ## The duration parser of the program -/

/-- The function `getDuration`, over the parser `parse` it calls
(`time.ParseDuration`).  The duration returned next to an error
(`time.Nanosecond`) is not read by the caller and is left out. -/
def getDuration {ε : Type} (parse : GoString → Except ε Duration) (s : GoString) :
    Except GoString Duration :=
  match parse s with
  | Except.ok duration => Except.ok duration
  | Except.error _ =>
    if s.length > 2 then
      let durationStr := s.take (s.length - 2)
      match parse durationStr with
      | Except.ok effort => Except.ok effort
      | Except.error _ => Except.error (go "cannot parse duration: " ++ s)
    else Except.error (go "cannot parse duration: " ++ s)

/-! ## The issue transformer -/

def transformToRedmineIssue {ε : Type} (parse : GoString → Except ε Duration)
    (redmineFlags : redmineFlags) (issue : SonarqubeIssue) : Except GoString RedmineIssue :=
  match getRedmineDescription issue with
  | Except.error err => Except.error err
  | Except.ok description =>
    match getRedmineSubject issue with
    | Except.error err => Except.error err
    | Except.ok subject =>
      let estimatedHours : ℚ :=
        match getDuration parse issue.Debt with
        | Except.ok duration => duration.Hours
        | Except.error _ => 0
      Except.ok {
        ProjectId := redmineFlags.projectId
        TrackerId := redmineFlags.trackerId
        StatusId := go "1"
        PriorityId := go "2"
        Subject := subject
        Description := description
        ParentIssueId := redmineFlags.parentIssueId
        EstimatedHours := estimatedHours
        CustomFields := [] }

/-! ## The remote services and the orchestrator -/

/-- What `http.Get` hands back: the status code, and the outcome of reading
the body (`ioutil.ReadAll`). -/
structure HttpResponse where
  StatusCode : Int
  Body : Except GoString GoString

/-- The behaviour of everything outside the program, over the states `σ` of
the outside world: the two remote services and the library routines whose
results the program only passes on.  Errors are their messages. -/
structure World (σ : Type) where
  /-- The text `u.String()` of `url.Parse(s)`, as used by `getSonarqubeIssues`. -/
  urlParse : GoString → Except GoString GoString
  /-- A call of `http.Get`. -/
  httpGet : σ → GoString → σ × Except GoString HttpResponse
  /-- A call of `json.Unmarshal` into a `SonarqubeResponse`. -/
  jsonUnmarshal : GoString → Except GoString SonarqubeResponse
  /-- A call of `time.ParseDuration`. -/
  parseDuration : GoString → Except ParseError Duration
  /-- A call of `json.Marshal` on a `RedmineRequest`. -/
  jsonMarshal : RedmineRequest → Except GoString GoString
  /-- A call of `http.NewRequest("POST", url, body)`: `none`, or the error. -/
  newRequest : GoString → Option GoString
  /-- A call of `client.Do` on the POST request with the given URL, headers and
  body: the status code of the response, or the transport error. -/
  clientDo : σ → GoString → List (GoString × GoString) → GoString → σ × Except GoString Int

/-- What the program does to the outside world, in order. -/
inductive Event where
  /-- A call `getSonarqubeIssues(url)` and what it returned. -/
  | fetch (url : GoString) (res : Except GoString SonarqubeResponse)
  /-- A POST request handed to `client.Do`. -/
  | post (url : GoString) (headers : List (GoString × GoString)) (body : GoString)
  /-- A call `createRedmineIssue(redmineFlags, issue)` and the error it returned. -/
  | create (issue : RedmineIssue) (err : Option GoString)
  /-- A pause `time.After(d)`. -/
  | sleep (d : Duration)
  deriving DecidableEq, Repr

/-- How a run of the program ends. -/
inductive Outcome where
  /-- The function `run` returned this error (`none` is `nil`). -/
  | returned (err : Option GoString)
  /-- The run stopped with a run-time panic. -/
  | panicked (msg : GoString)
  /-- The run is still going when the fuel of the model is used up. -/
  | running
  deriving DecidableEq, Repr

/-- A run: how it ended, the final state of the outside world, what it did. -/
structure Run (σ : Type) where
  outcome : Outcome
  state : σ
  trace : List Event

def getSonarqubeIssues {σ : Type} (w : World σ) (sonarqubeURLStr : GoString) (st : σ) :
    σ × Except GoString SonarqubeResponse :=
  match w.urlParse sonarqubeURLStr with
  | Except.error err => (st, Except.error (go "sonarqube url: " ++ err))
  | Except.ok sonarqubeURL =>
    match w.httpGet st sonarqubeURL with
    | (st1, Except.error err) => (st1, Except.error (go "sonarqube server: " ++ err))
    | (st1, Except.ok sonarqubeResponse) =>
      if sonarqubeResponse.StatusCode ≠ 200 then
        (st1, Except.error (go "sonarqube server response status code is not 200"))
      else
        match sonarqubeResponse.Body with
        | Except.error err => (st1, Except.error (go "sonarqube response body: " ++ err))
        | Except.ok body =>
          match w.jsonUnmarshal body with
          | Except.error err => (st1, Except.error (go "sonarqube response body: " ++ err))
          | Except.ok sonarqubeResponseBody => (st1, Except.ok sonarqubeResponseBody)

/-- The function `createRedmineIssue`: the new state of the world, the requests
sent, and the error returned. -/
def createRedmineIssue {σ : Type} (w : World σ) (redmineFlags : redmineFlags)
    (issue : RedmineIssue) (st : σ) : σ × List Event × Option GoString :=
  let requestBody : RedmineRequest := { Issue := issue }
  match w.jsonMarshal requestBody with
  | Except.error err => (st, [], some err)
  | Except.ok redmineIssueJson =>
    let url := redmineFlags.URL ++ go "/issues.json"
    match w.newRequest url with
    | some err => (st, [], some err)
    | none =>
      let headers := [(go "Content-Type", go "application/json"),
        (go "X-Redmine-API-Key", redmineFlags.apiKey)]
      match w.clientDo st url headers redmineIssueJson with
      | (st1, Except.error err) => (st1, [Event.post url headers redmineIssueJson], some err)
      | (st1, Except.ok statusCode) =>
        if statusCode ≥ 300 then
          (st1, [Event.post url headers redmineIssueJson],
            some (go "response status code " ++ Itoa statusCode))
        else (st1, [Event.post url headers redmineIssueJson], none)

/-- The function `importIssues`: the new state of the world and what was done. -/
def importIssues {σ : Type} (w : World σ) (redmineFlags : redmineFlags) :
    List SonarqubeIssue → σ → σ × List Event
  | [], st => (st, [])
  | sonarqubeIssue :: rest, st =>
    match transformToRedmineIssue w.parseDuration redmineFlags sonarqubeIssue with
    | Except.error _ => importIssues w redmineFlags rest st
    | Except.ok redmineIssue =>
      let r := createRedmineIssue w redmineFlags redmineIssue st
      let r2 := importIssues w redmineFlags rest r.1
      (r2.1, r.2.1 ++ [Event.create redmineIssue r.2.2, Event.sleep (2 * Second)] ++ r2.2)

/-- The loop `for i := 2; i <= int(numPages); i++` of `run`, entered with the
counter at `i` and the bound `n = int(numPages)`; one unit of fuel per round. -/
def pagesLoop {σ : Type} (w : World σ) (sonarqubeIssueSearchURL : GoString)
    (redmineFlags : redmineFlags) (n : Int) : Nat → Int → σ → Run σ
  | 0, _, st => { outcome := Outcome.running, state := st, trace := [] }
  | fuel + 1, i, st =>
    if i ≤ n then
      let issueSearchURL := sonarqubeIssueSearchURL ++ go "&pageIndex=" ++ Itoa i
      match getSonarqubeIssues w issueSearchURL st with
      | (st1, Except.error err) =>
        { outcome := Outcome.returned (some err), state := st1,
          trace := [Event.fetch issueSearchURL (Except.error err)] }
      | (st1, Except.ok response) =>
        let r := importIssues w redmineFlags response.Issues st1
        let r2 := pagesLoop w sonarqubeIssueSearchURL redmineFlags n fuel (incInt i) r.1
        { outcome := r2.outcome, state := r2.state,
          trace := Event.fetch issueSearchURL (Except.ok response) :: r.2 ++ r2.trace }
    else { outcome := Outcome.returned none, state := st, trace := [] }

/-- The function `run`, after the command line has been read into
`sonarqubeIssueSearchURL` and `redmineFlags`; `fuel` bounds the number of
rounds of the loop over the pages. -/
def run {σ : Type} (w : World σ) (fuel : Nat) (sonarqubeIssueSearchURL : GoString)
    (redmineFlags : redmineFlags) (st : σ) : Run σ :=
  match getSonarqubeIssues w sonarqubeIssueSearchURL st with
  | (st1, Except.error err) =>
    { outcome := Outcome.returned (some err), state := st1,
      trace := [Event.fetch sonarqubeIssueSearchURL (Except.error err)] }
  | (st1, Except.ok sonarqubeResponse) =>
    let r := importIssues w redmineFlags sonarqubeResponse.Issues st1
    match numPages sonarqubeResponse.Paging with
    | none =>
      { outcome := Outcome.panicked (go "runtime error: integer divide by zero"), state := r.1,
        trace := Event.fetch sonarqubeIssueSearchURL (Except.ok sonarqubeResponse) :: r.2 }
    | some numPages =>
      let r2 := pagesLoop w sonarqubeIssueSearchURL redmineFlags (toInt numPages) fuel 2 r.1
      { outcome := r2.outcome, state := r2.state,
        trace := Event.fetch sonarqubeIssueSearchURL (Except.ok sonarqubeResponse) :: r.2
          ++ r2.trace }

/-- The pages that were fetched, in order. -/
def fetched : List Event → List SonarqubeResponse
  | [] => []
  | Event.fetch _ (Except.ok r) :: es => r :: fetched es
  | _ :: es => fetched es

/-- The failed page fetches, in order. -/
def fetchErrors : List Event → List GoString
  | [] => []
  | Event.fetch _ (Except.error e) :: es => e :: fetchErrors es
  | _ :: es => fetchErrors es

/-- The issues of the calls of `createRedmineIssue`, in order. -/
def created : List Event → List RedmineIssue
  | [] => []
  | Event.create i _ :: es => i :: created es
  | _ :: es => created es

/-- The bodies of the POST requests sent, in order. -/
def posted : List Event → List GoString
  | [] => []
  | Event.post _ _ body :: es => body :: posted es
  | _ :: es => posted es

/-- The errors returned by the calls of `createRedmineIssue`, in order. -/
def createErrors : List Event → List (Option GoString)
  | [] => []
  | Event.create _ err :: es => err :: createErrors es
  | _ :: es => createErrors es

/-! ## Example worlds -/

/-- A source issue with the given rule, message, component and debt. -/
def exampleIssue (rule message component debt : String) : SonarqubeIssue :=
  { Key := go "k", Rule := go rule, Severity := go "MAJOR", Component := go component,
    Project := go "p", Line := 7, Hash := [], TextRange := ⟨7, 7, 0, 4⟩, Flows := [],
    Status := go "OPEN", Message := go message, Effort := go debt, Debt := go debt,
    Tags := [], CreationDate := [], UpdateDate := [], IssueType := go "BUG" }

def exampleFlags : redmineFlags :=
  { URL := go "http://redmine", apiKey := go "secret", projectId := go "12",
    trackerId := go "3", parentIssueId := go "99" }

def exampleURL : GoString := go "http://sonar/api/issues/search?ps=2"

/-- Page 1 of the two-page example: 2 issues, page size 2, total 3. -/
def examplePage1 : SonarqubeResponse :=
  { Paging := { PageIndex := 1, PageSize := 2, Total := 3 },
    Issues := [exampleIssue "squid:S1" "one" "src/a.go" "5min",
      exampleIssue "squid:S2" "two" "src/b.go" "1h30min"] }

/-- Page 2 of the two-page example: 1 issue. -/
def examplePage2 : SonarqubeResponse :=
  { Paging := { PageIndex := 2, PageSize := 2, Total := 3 },
    Issues := [exampleIssue "squid:S3" "three" "src/c.go" "5d"] }

/-- A world whose source service serves the two pages of the example and whose
tracker answers the second POST with 404 and every other one with 201.  The
state counts the POST requests received; a request body is the subject of the
issue. -/
def exampleWorld : World Nat :=
  { urlParse := fun s => Except.ok s
    httpGet := fun st u =>
      if u = exampleURL then (st, Except.ok ⟨200, Except.ok (go "page1")⟩)
      else if u = exampleURL ++ go "&pageIndex=2" then
        (st, Except.ok ⟨200, Except.ok (go "page2")⟩)
      else (st, Except.ok ⟨404, Except.ok []⟩)
    jsonUnmarshal := fun b =>
      if b = go "page1" then Except.ok examplePage1
      else if b = go "page2" then Except.ok examplePage2
      else Except.error (go "unexpected end of JSON input")
    parseDuration := ParseDuration
    jsonMarshal := fun r => Except.ok r.Issue.Subject
    newRequest := fun _ => none
    clientDo := fun st _ _ _ => (st + 1, Except.ok (if st = 1 then 404 else 201)) }

/-- A world whose source service answers every request with status 500. -/
def failingWorld : World Nat :=
  { exampleWorld with
    httpGet := fun st _ => (st, Except.ok ⟨500, Except.ok []⟩) }

/-- A world whose source service answers every request with the same page. -/
def constantWorld (page : SonarqubeResponse) : World Nat :=
  { exampleWorld with
    httpGet := fun st _ => (st, Except.ok ⟨200, Except.ok []⟩)
    jsonUnmarshal := fun _ => Except.ok page }

/-- An empty page that announces `2 ^ 63 - 2` issues in pages of 1. -/
def hugePage : SonarqubeResponse :=
  { Paging := { PageIndex := 1, PageSize := 1, Total := 2 ^ 63 - 2 }, Issues := [] }

/-- A page of one issue whose paging block is all zero, as decoded from a body
without a paging block. -/
def noPagingPage : SonarqubeResponse :=
  { Paging := { PageIndex := 0, PageSize := 0, Total := 0 },
    Issues := [exampleIssue "squid:S1" "one" "src/a.go" "5min"] }

/-! ## Definitions used by the statements -/

/-- The parsed subject template. -/
def subjectNodes : List Node :=
  [Node.item (Item.action (Cmd.call "getSquid" [Arg.field ["Rule"]])),
   Node.item (Item.text " "),
   Node.item (Item.action (Cmd.arg (Arg.field ["Message"]))),
   Node.item (Item.text " - "),
   Node.item (Item.action (Cmd.call "getFile" [Arg.field ["Component"]]))]

/-- The parsed description template. -/
def descriptionNodes : List Node :=
  [Node.item (Item.text "\nMessage: "),
   Node.item (Item.action (Cmd.arg (Arg.field ["Message"]))),
   Node.item (Item.text "\n\nComponent: "),
   Node.item (Item.action (Cmd.arg (Arg.field ["Component"]))),
   Node.item (Item.text "\nLine: "),
   Node.item (Item.action (Cmd.arg (Arg.field ["Line"]))),
   Node.item (Item.text "\n\nText range:\n\t- start line: "),
   Node.item (Item.action (Cmd.arg (Arg.field ["TextRange", "StartLine"]))),
   Node.item (Item.text "\n\t- end line: "),
   Node.item (Item.action (Cmd.arg (Arg.field ["TextRange", "EndLine"]))),
   Node.item (Item.text "\n\t- start offset "),
   Node.item (Item.action (Cmd.arg (Arg.field ["TextRange", "StartOffset"]))),
   Node.item (Item.text "\n\t- end offset "),
   Node.item (Item.action (Cmd.arg (Arg.field ["TextRange", "EndOffset"]))),
   Node.item (Item.text "\t\n\nKey: "),
   Node.item (Item.action (Cmd.arg (Arg.field ["Key"]))),
   Node.item (Item.text "\nRule: "),
   Node.item (Item.action (Cmd.arg (Arg.field ["Rule"]))),
   Node.item (Item.text "\nType: "),
   Node.item (Item.action (Cmd.arg (Arg.field ["Type"]))),
   Node.item (Item.text "\nDebt: "),
   Node.item (Item.action (Cmd.arg (Arg.field ["Debt"]))),
   Node.item (Item.text "\nEffort: "),
   Node.item (Item.action (Cmd.arg (Arg.field ["Effort"]))),
   Node.item (Item.text "\n\nTags: "),
   Node.range (Arg.field ["Tags"]) [Item.text "\n\t- ", Item.action (Cmd.arg Arg.dot)],
   Node.item (Item.text "\n")]

/-- The part of the description before the tag block. -/
def descriptionHead (issue : SonarqubeIssue) : GoString :=
  go "\nMessage: " ++ issue.Message ++
  go "\n\nComponent: " ++ issue.Component ++
  go "\nLine: " ++ formatUint issue.Line ++
  go "\n\nText range:\n\t- start line: " ++ formatUint issue.TextRange.StartLine ++
  go "\n\t- end line: " ++ formatUint issue.TextRange.EndLine ++
  go "\n\t- start offset " ++ formatUint issue.TextRange.StartOffset ++
  go "\n\t- end offset " ++ formatUint issue.TextRange.EndOffset ++
  go "\t\n\nKey: " ++ issue.Key ++
  go "\nRule: " ++ issue.Rule ++
  go "\nType: " ++ issue.IssueType ++
  go "\nDebt: " ++ issue.Debt ++
  go "\nEffort: " ++ issue.Effort ++
  go "\n\n"

/-- One bulleted line per tag, each opened by the line break that ends the
line before it. -/
def tagLines (ts : List GoString) : GoString :=
  (ts.map (fun t => go "\n\t- " ++ t)).flatten

/-! ## Theorems -/

theorem parse_subjectTmplStr :
    parseTemplate ["getSquid", "getFile"] subjectTmplStr = some subjectNodes := by
  decide

theorem lastIndexFrom_not_mem (c : UInt8) (s : GoString) (pos : Nat) (best : Int)
    (h : c ∉ s) : lastIndexFrom [c] s pos best = best := by
  induction s generalizing pos best with
  | nil => simp [lastIndexFrom]
  | cons x xs ih =>
    simp only [List.mem_cons, not_or] at h
    simp only [lastIndexFrom]
    rw [ih _ _ h.2]
    simp [List.isPrefixOf, h.1]

theorem lastIndexFrom_split (c : UInt8) (pre suf : GoString) (pos : Nat) (best : Int)
    (h : c ∉ suf) : lastIndexFrom [c] (pre ++ c :: suf) pos best = (pos + pre.length : Nat) := by
  induction pre generalizing pos best with
  | nil =>
    simp only [List.nil_append, lastIndexFrom, List.length_nil, Nat.add_zero]
    rw [lastIndexFrom_not_mem c suf _ _ h]
    simp [List.isPrefixOf]
  | cons x xs ih =>
    show lastIndexFrom [c] (xs ++ c :: suf) (pos + 1) _ = _
    rw [ih, List.length_cons]
    congr 1
    omega

theorem lookup_fields (i : SonarqubeIssue) :
    i.lookup ["Message"] = some (Value.str i.Message) ∧
    i.lookup ["Component"] = some (Value.str i.Component) ∧
    i.lookup ["Line"] = some (Value.uint i.Line) ∧
    i.lookup ["Key"] = some (Value.str i.Key) ∧
    i.lookup ["Rule"] = some (Value.str i.Rule) ∧
    i.lookup ["Type"] = some (Value.str i.IssueType) ∧
    i.lookup ["Debt"] = some (Value.str i.Debt) ∧
    i.lookup ["Effort"] = some (Value.str i.Effort) ∧
    i.lookup ["Tags"] = some (Value.strs i.Tags) ∧
    i.lookup ["TextRange", "StartLine"] = some (Value.uint i.TextRange.StartLine) ∧
    i.lookup ["TextRange", "EndLine"] = some (Value.uint i.TextRange.EndLine) ∧
    i.lookup ["TextRange", "StartOffset"] = some (Value.uint i.TextRange.StartOffset) ∧
    i.lookup ["TextRange", "EndOffset"] = some (Value.uint i.TextRange.EndOffset) := by
  refine ⟨?_, ?_, ?_, ?_, ?_, ?_, ?_, ?_, ?_, ?_, ?_, ?_, ?_⟩ <;> rfl

theorem execNodes_text (funcs : FuncMap) (dot : Dot) (s : String) (rest : List Node)
    (out : GoString) :
    execNodes funcs dot (Node.item (Item.text s) :: rest) out =
      execNodes funcs dot rest (out ++ go s) := by
  simp [execNodes, execItems]

theorem execNodes_field (funcs : FuncMap) (i : SonarqubeIssue) (path : List String) (v : Value)
    (rest : List Node) (out : GoString) (h : i.lookup path = some v) :
    execNodes funcs (Dot.issue i) (Node.item (Item.action (Cmd.arg (Arg.field path))) :: rest) out =
      execNodes funcs (Dot.issue i) rest (out ++ v.print) := by
  simp [execNodes, execItems, evalCmd, evalArg, h]

theorem execNodes_call (funcs : FuncMap) (i : SonarqubeIssue) (fn : String) (path : List String)
    (f : GoString → GoString) (s : GoString) (rest : List Node) (out : GoString)
    (hf : funcs.lookup fn = some (stringFunc f)) (h : i.lookup path = some (Value.str s)) :
    execNodes funcs (Dot.issue i)
        (Node.item (Item.action (Cmd.call fn [Arg.field path])) :: rest) out =
      execNodes funcs (Dot.issue i) rest (out ++ f s) := by
  simp [execNodes, execItems, evalCmd, evalArgs, evalArg, h, hf, stringFunc, Value.print]

theorem subject_eq (issue : SonarqubeIssue) :
    getRedmineSubject issue =
      Except.ok (getSquid issue ++ go " " ++ issue.Message ++ go " - " ++ getFile issue) := by
  obtain ⟨hM, hC, -, -, hR, -⟩ := lookup_fields issue
  unfold getRedmineSubject
  have hnames : (subjectFuncMap issue).map Prod.fst = ["getSquid", "getFile"] := rfl
  simp only [hnames]
  rw [parse_subjectTmplStr]
  show execNodes (subjectFuncMap issue) (Dot.issue issue) subjectNodes [] = _
  unfold subjectNodes
  have hS : (subjectFuncMap issue).lookup "getSquid" =
      some (stringFunc (fun _ => getSquid issue)) := rfl
  have hF : (subjectFuncMap issue).lookup "getFile" =
      some (stringFunc (fun _ => getFile issue)) := rfl
  rw [execNodes_call _ _ _ _ _ _ _ _ hS hR, execNodes_text,
    execNodes_field _ _ _ _ _ _ hM, execNodes_text,
    execNodes_call _ _ _ _ _ _ _ _ hF hC]
  simp [execNodes, Value.print]

set_option maxRecDepth 100000 in
theorem parse_descriptionTmplStr :
    parseTemplate [] descriptionTmplStr = some descriptionNodes := by
  decide

theorem execRange_tags (ts : List GoString) (out : GoString) :
    execRange [] [Item.text "\n\t- ", Item.action (Cmd.arg Arg.dot)] ts out =
      Except.ok (out ++ tagLines ts) := by
  induction ts generalizing out with
  | nil => simp [execRange, tagLines]
  | cons t ts ih =>
    simp only [execRange, execItems, evalCmd, evalArg, Value.print]
    rw [ih]
    simp [tagLines, List.append_assoc]

theorem execNodes_tags (i : SonarqubeIssue) (rest : List Node) (out : GoString) :
    execNodes [] (Dot.issue i)
        (Node.range (Arg.field ["Tags"]) [Item.text "\n\t- ", Item.action (Cmd.arg Arg.dot)]
          :: rest) out =
      execNodes [] (Dot.issue i) rest (out ++ tagLines i.Tags) := by
  have h := (lookup_fields i).2.2.2.2.2.2.2.2.1
  simp [execNodes, evalArg, h, execRange_tags]

theorem description_eq (issue : SonarqubeIssue) :
    getRedmineDescription issue =
      Except.ok (descriptionHead issue ++ go "Tags: " ++ tagLines issue.Tags ++ go "\n") := by
  obtain ⟨h1, h2, h3, h4, h5, h6, h7, h8, -, h10, h11, h12, h13⟩ := lookup_fields issue
  unfold getRedmineDescription
  rw [parse_descriptionTmplStr]
  show execNodes [] (Dot.issue issue) descriptionNodes [] = _
  unfold descriptionNodes
  rw [execNodes_text, execNodes_field _ _ _ _ _ _ h1, execNodes_text,
    execNodes_field _ _ _ _ _ _ h2, execNodes_text, execNodes_field _ _ _ _ _ _ h3,
    execNodes_text, execNodes_field _ _ _ _ _ _ h10, execNodes_text,
    execNodes_field _ _ _ _ _ _ h11, execNodes_text, execNodes_field _ _ _ _ _ _ h12,
    execNodes_text, execNodes_field _ _ _ _ _ _ h13, execNodes_text,
    execNodes_field _ _ _ _ _ _ h4, execNodes_text, execNodes_field _ _ _ _ _ _ h5,
    execNodes_text, execNodes_field _ _ _ _ _ _ h6, execNodes_text,
    execNodes_field _ _ _ _ _ _ h7, execNodes_text, execNodes_field _ _ _ _ _ _ h8,
    execNodes_text, execNodes_tags, execNodes_text]
  have hsplit : go "\n\nTags: " = go "\n\n" ++ go "Tags: " := by decide
  simp only [execNodes, Value.print, descriptionHead, hsplit, List.append_assoc, List.nil_append]

/-! ### Page count -/

/-- C1 (as stated, refuted): on the well-formed paging block with page size 1 and
total `2 ^ 64 - 1` the page count that `run` computes is not `T div P + 1`:
the `uint64` addition wraps around and gives 0. -/
theorem numPages_wraps_at_max_total :
    (0 < (1 : Nat)) ∧ (2 ^ 64 - 1 < uint64Mod) ∧
    numPages { PageIndex := 1, PageSize := 1, Total := 2 ^ 64 - 1 } = some 0 ∧
    numPages { PageIndex := 1, PageSize := 1, Total := 2 ^ 64 - 1 } ≠
      some ((2 ^ 64 - 1) / 1 + 1) := by
  decide

/-- C1 (amended): for every paging block of `uint64` fields with page size
`P > 0` and total `T`, other than `T = 2 ^ 64 - 1` with `P = 1`, the page count
that `run` computes is `T div P + 1`; when `T` is an exact multiple `k * P` it is
`k + 1`, one more than the `k` pages that hold `T` issues; and when it is below
`2 ^ 63` the loop bound `int(numPages)` is that same number. -/
theorem numPages_eq_div_add_one (p : SonarqubePaging) (hwf : p.WF) (hP : 0 < p.PageSize)
    (hmax : ¬ (p.Total = 2 ^ 64 - 1 ∧ p.PageSize = 1)) :
    numPages p = some (p.Total / p.PageSize + 1) ∧
    (∀ k, k * p.PageSize = p.Total → numPages p = some (k + 1)) ∧
    (p.Total / p.PageSize + 1 < 2 ^ 63 →
      toInt (p.Total / p.PageSize + 1) = (p.Total / p.PageSize + 1 : Nat)) := by
  obtain ⟨-, hPs, hT⟩ := hwf
  simp only [uint64Mod] at hPs hT
  have hlt : p.Total / p.PageSize + 1 < 2 ^ 64 := by
    by_cases h1 : p.PageSize = 1
    · have : p.Total ≠ 2 ^ 64 - 1 := fun h => hmax ⟨h, h1⟩
      rw [h1, Nat.div_one]
      omega
    · have h2 : 2 ≤ p.PageSize := by omega
      have : p.Total / p.PageSize ≤ p.Total / 2 := Nat.div_le_div_left h2 (by norm_num)
      omega
  have hnum : numPages p = some (p.Total / p.PageSize + 1) := by
    unfold numPages
    rw [if_neg (by omega), uint64Mod, Nat.mod_eq_of_lt hlt]
  refine ⟨hnum, ?_, ?_⟩
  · intro k hk
    rw [hnum, ← hk, Nat.mul_div_cancel _ hP]
  · intro h63
    unfold toInt
    rw [uint64Mod, Nat.mod_eq_of_lt hlt, if_pos h63]

/-- Witness of `numPages_eq_div_add_one`: page size 2 and total 4 give 3 pages. -/
theorem numPages_eq_div_add_one_witness :
    numPages { PageIndex := 1, PageSize := 2, Total := 4 } = some (4 / 2 + 1) ∧
    (∀ k, k * 2 = 4 → numPages { PageIndex := 1, PageSize := 2, Total := 4 } = some (k + 1)) ∧
    (4 / 2 + 1 < 2 ^ 63 → toInt (4 / 2 + 1) = (4 / 2 + 1 : Nat)) :=
  numPages_eq_div_add_one { PageIndex := 1, PageSize := 2, Total := 4 }
    (by simp [SonarqubePaging.WF, uint64Mod]) (by decide) (by decide)

/-! ### Subject -/

/-- C2: for every source issue, `getRedmineSubject` succeeds and returns
`squid ++ " " ++ message ++ " - " ++ filename`, where `squid` is empty when the
rule has no colon or ends with its last colon and otherwise is the text after
the last colon followed by a colon, and `filename` is empty when the component
has no slash and otherwise the text after its last slash; rule `squid:S1234`,
message `Fix this`, component `src/main.go` give `S1234: Fix this - main.go`,
and a rule without a colon gives a subject that starts with a space and the
message. -/
theorem getRedmineSubject_contract :
    (∀ issue : SonarqubeIssue, ∃ squid filename : GoString,
      getRedmineSubject issue =
        Except.ok (squid ++ go " " ++ issue.Message ++ go " - " ++ filename) ∧
      (58 ∉ issue.Rule → squid = []) ∧
      (∀ pre suf, issue.Rule = pre ++ 58 :: suf → 58 ∉ suf →
        squid = if suf = [] then [] else suf ++ go ":") ∧
      (47 ∉ issue.Component → filename = []) ∧
      (∀ pre suf, issue.Component = pre ++ 47 :: suf → 47 ∉ suf → filename = suf)) ∧
    (∀ issue : SonarqubeIssue, issue.Rule = go "squid:S1234" → issue.Message = go "Fix this" →
      issue.Component = go "src/main.go" →
      getRedmineSubject issue = Except.ok (go "S1234: Fix this - main.go")) ∧
    (∀ issue : SonarqubeIssue, 58 ∉ issue.Rule → ∃ rest,
      getRedmineSubject issue = Except.ok (go " " ++ issue.Message ++ rest)) := by
  have hcolon : go ":" = [58] := by decide
  have hslash : go "/" = [47] := by decide
  have squid_none : ∀ issue : SonarqubeIssue, 58 ∉ issue.Rule → getSquid issue = [] := by
    intro issue h
    simp [getSquid, LastIndex, hcolon, lastIndexFrom_not_mem 58 _ _ _ h]
  have squid_split : ∀ (issue : SonarqubeIssue) (pre suf : GoString),
      issue.Rule = pre ++ 58 :: suf → 58 ∉ suf →
      getSquid issue = if suf = [] then [] else suf ++ go ":" := by
    intro issue pre suf hr hs
    simp only [getSquid, LastIndex, hcolon, hr, lastIndexFrom_split 58 pre suf 0 (-1) hs]
    by_cases hsuf : suf = []
    · subst hsuf
      simp
    · have hlen : 0 < suf.length := List.length_pos.mpr hsuf
      have hdrop : List.drop (pre.length + 1) (pre ++ 58 :: suf) = suf := by
        rw [show pre ++ 58 :: suf = (pre ++ [58]) ++ suf by simp]
        rw [List.drop_append_of_le_length (by simp)]
        simp
      have hnat : ((((0 + pre.length : Nat) : Int) + 1).toNat) = pre.length + 1 := by
        omega
      rw [if_pos, if_neg hsuf, hnat, hdrop]
      refine ⟨by omega, ?_⟩
      simp only [List.length_append, List.length_cons]
      omega
  have file_none : ∀ issue : SonarqubeIssue, 47 ∉ issue.Component → getFile issue = [] := by
    intro issue h
    simp [getFile, LastIndex, hslash, lastIndexFrom_not_mem 47 _ _ _ h]
  have file_split : ∀ (issue : SonarqubeIssue) (pre suf : GoString),
      issue.Component = pre ++ 47 :: suf → 47 ∉ suf → getFile issue = suf := by
    intro issue pre suf hr hs
    simp only [getFile, LastIndex, hslash, hr, lastIndexFrom_split 47 pre suf 0 (-1) hs]
    by_cases hsuf : suf = []
    · subst hsuf
      simp
    · have hlen : 0 < suf.length := List.length_pos.mpr hsuf
      have hdrop : List.drop (pre.length + 1) (pre ++ 47 :: suf) = suf := by
        rw [show pre ++ 47 :: suf = (pre ++ [47]) ++ suf by simp]
        rw [List.drop_append_of_le_length (by simp)]
        simp
      have hnat : ((((0 + pre.length : Nat) : Int) + 1).toNat) = pre.length + 1 := by
        omega
      rw [if_pos, hnat, hdrop]
      refine ⟨by omega, ?_⟩
      simp only [List.length_append, List.length_cons]
      omega
  refine ⟨?_, ?_, ?_⟩
  · intro issue
    exact ⟨getSquid issue, getFile issue, subject_eq issue, squid_none issue,
      squid_split issue, file_none issue, file_split issue⟩
  · intro issue hR hM hC
    have h1 : getSquid issue = go "S1234:" := by
      rw [squid_split issue (go "squid") (go "S1234") (by rw [hR]; decide) (by decide)]
      decide
    have h2 : getFile issue = go "main.go" := by
      rw [file_split issue (go "src") (go "main.go") (by rw [hC]; decide) (by decide)]
    rw [subject_eq, h1, h2, hM]
    decide
  · intro issue h
    refine ⟨go " - " ++ getFile issue, ?_⟩
    rw [subject_eq, squid_none issue h]
    simp

/-! ### Description -/

/-- C9: for every source issue, `getRedmineDescription` succeeds and its result
is the head of the description followed by `Tags: `, one line `\t- <tag>` per
tag in the order of the tag list, and a final newline; tags `a`, `b` give the
two lines `\t- a` and `\t- b`, and an empty tag list gives no bullet line: the
result then ends with `Tags: \n`. -/
theorem getRedmineDescription_tags :
    (∀ issue : SonarqubeIssue,
      getRedmineDescription issue =
        Except.ok (descriptionHead issue ++ go "Tags: " ++
          (issue.Tags.map (fun t => go "\n\t- " ++ t)).flatten ++ go "\n")) ∧
    (∀ issue : SonarqubeIssue, issue.Tags = [go "a", go "b"] →
      getRedmineDescription issue =
        Except.ok (descriptionHead issue ++ go "Tags: \n\t- a\n\t- b\n")) ∧
    (∀ issue : SonarqubeIssue, issue.Tags = [] →
      getRedmineDescription issue = Except.ok (descriptionHead issue ++ go "Tags: \n")) := by
  refine ⟨fun issue => description_eq issue, ?_, ?_⟩
  · intro issue h
    rw [description_eq, h]
    have : go "Tags: " ++ tagLines [go "a", go "b"] ++ go "\n" = go "Tags: \n\t- a\n\t- b\n" := by
      decide
    rw [← this]
    simp [List.append_assoc]
  · intro issue h
    rw [description_eq, h]
    have : go "Tags: " ++ tagLines [] ++ go "\n" = go "Tags: \n" := by decide
    rw [← this]
    simp [List.append_assoc]

/-! ### Duration parsing -/

theorem leadingInt_length (s : GoString) (x v : Nat) (r : GoString)
    (h : leadingInt s x = some (v, r)) : r.length ≤ s.length := by
  induction s generalizing x with
  | nil =>
    simp only [leadingInt, Option.some.injEq, Prod.mk.injEq] at h
    rw [← h.2]
  | cons c rest ih =>
    rw [leadingInt] at h
    split at h
    · simp only [Option.some.injEq, Prod.mk.injEq] at h
      rw [← h.2]
    · split at h
      · simp at h
      · simp only [] at h
        split at h
        · simp at h
        · have := ih _ h
          simp only [List.length_cons]
          omega

theorem leadingFraction_length (s : GoString) (x scale : Nat) (overflow : Bool) :
    (leadingFraction s x scale overflow).2.2.length ≤ s.length := by
  induction s generalizing x scale overflow with
  | nil => simp [leadingFraction]
  | cons c rest ih =>
    rw [leadingFraction]
    split
    · simp
    · split
      · have := ih x scale true
        simp only [List.length_cons]
        omega
      · split
        · have := ih x scale true
          simp only [List.length_cons]
          omega
        · simp only []
          split
          · have := ih x scale true
            simp only [List.length_cons]
            omega
          · have := ih (x * 10 + c.toNat - 48) (scale * 10) false
            simp only [List.length_cons]
            omega

theorem consumeFraction_length (s : GoString) :
    (consumeFraction s).2.2.1.length ≤ s.length := by
  unfold consumeFraction
  split
  · rename_i s2
    have := leadingFraction_length s2 0 1 false
    simp only [List.length_cons]
    omega
  · exact Nat.le_refl _

/-- The fuel `len(s)` is enough for the loop of `time.ParseDuration`. -/
theorem parseUnits_total (orig : GoString) (fuel : Nat) (s : GoString) (d : Nat)
    (h : s.length ≤ fuel) : parseUnits orig fuel s d ≠ none := by
  induction fuel generalizing s d with
  | zero =>
    cases s with
    | nil => simp [parseUnits]
    | cons c rest => simp at h
  | succ fuel ih =>
    cases s with
    | nil => simp [parseUnits]
    | cons c rest =>
      rw [parseUnits]
      split
      · simp
      · rcases hli : leadingInt (c :: rest) 0 with _ | ⟨v, s1⟩
        · simp
        · simp only []
          have h1 := leadingInt_length _ _ _ _ hli
          have h2 := consumeFraction_length s1
          generalize consumeFraction s1 = fr at h2 ⊢
          obtain ⟨f, scale, s3, post⟩ := fr
          simp only [] at h2 ⊢
          simp only [List.length_cons] at h h1
          repeat' split
          all_goals first
            | exact Option.some_ne_none _
            | (apply ih; simp only [List.length_drop]; omega)

/-- The model of `time.ParseDuration` never runs out of fuel: it returns what
the loop returns. -/
theorem ParseDuration_fuel (orig : GoString) :
    parseUnits orig
      (if orig.head? = some 45 ∨ orig.head? = some 43 then orig.tail else orig).length
      (if orig.head? = some 45 ∨ orig.head? = some 43 then orig.tail else orig) 0 ≠ none :=
  parseUnits_total orig _ _ 0 (Nat.le_refl _)


/-- C3 (as stated, refuted): the length test and the cut of `getDuration` count
bytes, not characters.  The string `0é` has 2 characters (3 bytes) and
`time.ParseDuration` rejects it, yet `getDuration` returns the duration 0 for
it, parsed from `0`, the string without its last 2 bytes.  The string `1hé` has
3 characters (4 bytes), `time.ParseDuration` rejects it and also rejects `1`,
the string without its last 2 characters, yet `getDuration` returns one hour
for it, parsed from `1h`. -/
theorem getDuration_counts_bytes_not_characters :
    ("0é" : String).length = 2 ∧ (go "0é").length = 3 ∧
    ParseDuration (go "0é") = Except.error (ParseError.unknownUnit (go "é") (go "0é")) ∧
    getDuration ParseDuration (go "0é") = Except.ok 0 ∧
    ("1hé" : String).length = 3 ∧ (go "1hé").length = 4 ∧
    ParseDuration (go "1hé") = Except.error (ParseError.unknownUnit (go "hé") (go "1hé")) ∧
    String.mk ("1hé".data.dropLast.dropLast) = "1" ∧
    ParseDuration (go (String.mk ("1hé".data.dropLast.dropLast))) =
      Except.error (ParseError.missingUnit (go "1")) ∧
    getDuration ParseDuration (go "1hé") = Except.ok Hour := by
  have h0 : getDuration ParseDuration (go "0é") = Except.ok 0 := by decide
  have h1 : getDuration ParseDuration (go "1hé") = Except.ok Hour := by decide
  have hcut : String.mk ("1hé".data.dropLast.dropLast) = "1" := by decide
  refine ⟨by decide, by decide, by decide, h0, by decide, by decide, by decide, hcut, ?_, h1⟩
  rw [hcut]
  decide

/-- C3 (amended): for every string `s` and every parser `parse` in the place of
`time.ParseDuration`, `getDuration` returns `parse s` when that succeeds;
otherwise, when `s` is longer than 2 bytes and `parse` succeeds on `s` without
its last 2 bytes, it returns that result; and it fails exactly when `parse s`
fails and `s` has at most 2 bytes or `parse` fails on `s` without its last 2
bytes. -/
theorem getDuration_contract {ε : Type} (parse : GoString → Except ε Duration) (s : GoString) :
    (∀ d, parse s = Except.ok d → getDuration parse s = Except.ok d) ∧
    (∀ e t a b d, parse s = Except.error e → s = t ++ [a, b] → t ≠ [] →
      parse t = Except.ok d → getDuration parse s = Except.ok d) ∧
    ((∃ msg, getDuration parse s = Except.error msg) ↔
      (∃ e, parse s = Except.error e) ∧
        (s.length ≤ 2 ∨ ∃ e, parse (s.take (s.length - 2)) = Except.error e)) ∧
    (∀ t a b, s = t ++ [a, b] → s.take (s.length - 2) = t) := by
  refine ⟨?_, ?_, ?_, ?_⟩
  · intro d h
    simp [getDuration, h]
  · intro e t a b d h hs ht hd
    have hlen : s.length > 2 := by
      have : 0 < t.length := List.length_pos.mpr ht
      rw [hs, List.length_append]
      simp
      omega
    have htake : s.take (s.length - 2) = t := by
      rw [hs]
      simp
    simp only [getDuration, h, if_pos hlen, htake, hd]
  · unfold getDuration
    cases h : parse s with
    | ok d => simp
    | error e =>
      by_cases hlen : s.length > 2
      · simp only [if_pos hlen]
        cases h2 : parse (s.take (s.length - 2)) with
        | ok d => simp; omega
        | error e2 => simp
      · simp only [if_neg hlen]
        simp
        left
        omega
  · intro t a b hs
    rw [hs]
    simp

/-- The formatters never fail, so the transformer always returns an issue. -/
theorem transform_eq {ε : Type} (parse : GoString → Except ε Duration) (flags : redmineFlags)
    (issue : SonarqubeIssue) :
    transformToRedmineIssue parse flags issue =
      Except.ok {
        ProjectId := flags.projectId
        TrackerId := flags.trackerId
        StatusId := go "1"
        PriorityId := go "2"
        Subject := getSquid issue ++ go " " ++ issue.Message ++ go " - " ++ getFile issue
        Description := descriptionHead issue ++ go "Tags: " ++ tagLines issue.Tags ++ go "\n"
        ParentIssueId := flags.parentIssueId
        EstimatedHours :=
          match getDuration parse issue.Debt with
          | Except.ok duration => duration.Hours
          | Except.error _ => 0
        CustomFields := [] } := by
  unfold transformToRedmineIssue
  rw [description_eq, subject_eq]

/-- C4: for every configuration and every source issue, and every parser in the
place of `time.ParseDuration`, `transformToRedmineIssue` succeeds; the issue it
returns has the project, tracker and parent of the configuration, status `1`,
priority `2`, the subject of `getRedmineSubject`, the description of
`getRedmineDescription`, no custom fields, and as estimated hours the hours of
`getDuration` of the debt when that succeeds and 0 when it fails. -/
theorem transformToRedmineIssue_contract {ε : Type} (parse : GoString → Except ε Duration)
    (flags : redmineFlags) (issue : SonarqubeIssue) :
    ∃ r : RedmineIssue,
      transformToRedmineIssue parse flags issue = Except.ok r ∧
      r.ProjectId = flags.projectId ∧ r.TrackerId = flags.trackerId ∧
      r.ParentIssueId = flags.parentIssueId ∧
      r.StatusId = go "1" ∧ r.PriorityId = go "2" ∧
      getRedmineSubject issue = Except.ok r.Subject ∧
      getRedmineDescription issue = Except.ok r.Description ∧
      r.CustomFields = [] ∧
      (∀ d, getDuration parse issue.Debt = Except.ok d → r.EstimatedHours = d.Hours) ∧
      (∀ msg, getDuration parse issue.Debt = Except.error msg → r.EstimatedHours = 0) := by
  refine ⟨_, transform_eq parse flags issue, rfl, rfl, rfl, rfl, rfl, subject_eq issue,
    description_eq issue, rfl, ?_, ?_⟩
  · intro d h
    simp only [h]
  · intro msg h
    simp only [h]

/-- C7: `getDuration` of `1h30min` succeeds with 5400 seconds, which is exactly
1.5 hours, and every issue whose debt is `1h30min` is transformed with 1.5
estimated hours. -/
theorem getDuration_1h30min :
    getDuration ParseDuration (go "1h30min") = Except.ok (5400 * Second) ∧
    Duration.Hours (5400 * Second) = 3 / 2 ∧
    (∀ (flags : redmineFlags) (issue : SonarqubeIssue), issue.Debt = go "1h30min" →
      ∃ r, transformToRedmineIssue ParseDuration flags issue = Except.ok r ∧
        r.EstimatedHours = 3 / 2) := by
  have h1 : getDuration ParseDuration (go "1h30min") = Except.ok (5400 * Second) := by decide
  have h2 : Duration.Hours (5400 * Second) = 3 / 2 := by
    have : (5400 * Second : Duration) = 5400000000000 := by decide
    rw [this]
    have e1 : Int.tdiv 5400000000000 Hour = 1 := by decide
    have e2 : Int.tmod 5400000000000 Hour = 1800000000000 := by decide
    simp only [Duration.Hours, e1, e2]
    norm_num
  refine ⟨h1, h2, ?_⟩
  intro flags issue hD
  refine ⟨_, transform_eq ParseDuration flags issue, ?_⟩
  simp only [hD, h1, h2]

/-- C8 (as stated, refuted): `getDuration` does not accept the day-unit string
`5d`; it returns no duration for it. -/
theorem getDuration_5d_rejected :
    ¬ ∃ d, getDuration ParseDuration (go "5d") = Except.ok d := by
  have h : getDuration ParseDuration (go "5d") = Except.error (go "cannot parse duration: 5d") := by
    decide
  rw [h]
  simp

/-- C8 (amended): `getDuration` returns an error for the day-unit string `5d`
(the parser rejects the unit `d`, and a string of 2 bytes is not retried
without its last 2 bytes), so that an issue whose debt is `5d` gets 0 estimated
hours; it returns a duration for `1h30min`. -/
theorem getDuration_5d_error :
    ParseDuration (go "5d") = Except.error (ParseError.unknownUnit (go "d") (go "5d")) ∧
    getDuration ParseDuration (go "5d") = Except.error (go "cannot parse duration: 5d") ∧
    (∀ (flags : redmineFlags) (issue : SonarqubeIssue), issue.Debt = go "5d" →
      ∃ r, transformToRedmineIssue ParseDuration flags issue = Except.ok r ∧
        r.EstimatedHours = 0) ∧
    (∃ d, getDuration ParseDuration (go "1h30min") = Except.ok d) := by
  have h : getDuration ParseDuration (go "5d") = Except.error (go "cannot parse duration: 5d") := by
    decide
  refine ⟨by decide, h, ?_, ⟨5400 * Second, by decide⟩⟩
  intro flags issue hD
  refine ⟨_, transform_eq ParseDuration flags issue, ?_⟩
  simp only [hD, h]

/-! ### The import loop -/

theorem fetched_cons_ok (u : GoString) (r : SonarqubeResponse) (es : List Event) :
    fetched (Event.fetch u (Except.ok r) :: es) = r :: fetched es := rfl

theorem fetched_cons_error (u e : GoString) (es : List Event) :
    fetched (Event.fetch u (Except.error e) :: es) = fetched es := rfl

theorem fetchErrors_cons_ok (u : GoString) (r : SonarqubeResponse) (es : List Event) :
    fetchErrors (Event.fetch u (Except.ok r) :: es) = fetchErrors es := rfl

theorem fetchErrors_cons_error (u e : GoString) (es : List Event) :
    fetchErrors (Event.fetch u (Except.error e) :: es) = e :: fetchErrors es := rfl

theorem created_cons_fetch (u : GoString) (r : Except GoString SonarqubeResponse)
    (es : List Event) : created (Event.fetch u r :: es) = created es := rfl

theorem posted_cons_fetch (u : GoString) (r : Except GoString SonarqubeResponse)
    (es : List Event) : posted (Event.fetch u r :: es) = posted es := rfl

theorem fetched_append (a b : List Event) : fetched (a ++ b) = fetched a ++ fetched b := by
  induction a with
  | nil => rfl
  | cons e es ih =>
    cases e with
    | fetch u r => cases r <;> simp [fetched, ih]
    | post u h b => simp [fetched, ih]
    | create i r => simp [fetched, ih]
    | sleep d => simp [fetched, ih]

theorem fetchErrors_append (a b : List Event) :
    fetchErrors (a ++ b) = fetchErrors a ++ fetchErrors b := by
  induction a with
  | nil => rfl
  | cons e es ih =>
    cases e with
    | fetch u r => cases r <;> simp [fetchErrors, ih]
    | post u h b => simp [fetchErrors, ih]
    | create i r => simp [fetchErrors, ih]
    | sleep d => simp [fetchErrors, ih]

theorem created_append (a b : List Event) : created (a ++ b) = created a ++ created b := by
  induction a with
  | nil => rfl
  | cons e es ih =>
    cases e with
    | fetch u r => simp [created, ih]
    | post u h b => simp [created, ih]
    | create i r => simp [created, ih]
    | sleep d => simp [created, ih]

theorem posted_append (a b : List Event) : posted (a ++ b) = posted a ++ posted b := by
  induction a with
  | nil => rfl
  | cons e es ih =>
    cases e with
    | fetch u r => simp [posted, ih]
    | post u h b => simp [posted, ih]
    | create i r => simp [posted, ih]
    | sleep d => simp [posted, ih]

theorem fetchErrors_of_mem (u e : GoString) (tr : List Event)
    (h : Event.fetch u (Except.error e) ∈ tr) : fetchErrors tr ≠ [] := by
  induction tr with
  | nil => simp at h
  | cons x xs ih =>
    rcases List.mem_cons.mp h with rfl | h2
    · simp [fetchErrors]
    · have := ih h2
      cases x with
      | fetch u r => cases r <;> simp [fetchErrors, this]
      | post u h b => simpa [fetchErrors] using this
      | create i r => simpa [fetchErrors] using this
      | sleep d => simpa [fetchErrors] using this

/-- A call of `createRedmineIssue` sends at most one POST request and does
nothing else to the outside world. -/
theorem createRedmineIssue_events {σ : Type} (w : World σ) (flags : redmineFlags)
    (issue : RedmineIssue) (st : σ) :
    fetched (createRedmineIssue w flags issue st).2.1 = [] ∧
    fetchErrors (createRedmineIssue w flags issue st).2.1 = [] ∧
    created (createRedmineIssue w flags issue st).2.1 = [] ∧
    (posted (createRedmineIssue w flags issue st).2.1).length ≤ 1 := by
  rcases hm : w.jsonMarshal { Issue := issue } with e | body
  · simp only [createRedmineIssue, hm, fetched, fetchErrors, created, posted, List.length_nil,
      Nat.zero_le, and_self]
  · rcases hn : w.newRequest (flags.URL ++ go "/issues.json") with _ | e
    · rcases h : w.clientDo st (flags.URL ++ go "/issues.json")
        [(go "Content-Type", go "application/json"), (go "X-Redmine-API-Key", flags.apiKey)]
        body with ⟨st1, e | code⟩
      · simp only [createRedmineIssue, hm, hn, h, fetched, fetchErrors, created, posted,
          List.length_cons, List.length_nil, Nat.le_refl, and_self]
      · by_cases hc : code ≥ 300 <;>
          simp only [createRedmineIssue, hm, hn, h, hc, if_true, if_false, fetched, fetchErrors,
            created, posted, List.length_cons, List.length_nil, Nat.le_refl, and_self]
    · simp only [createRedmineIssue, hm, hn, fetched, fetchErrors, created, posted,
        List.length_nil, Nat.zero_le, and_self]

set_option maxRecDepth 100000 in
theorem importIssues_cons {σ : Type} (w : World σ) (flags : redmineFlags)
    (i : SonarqubeIssue) (rest : List SonarqubeIssue) (st : σ) (r : RedmineIssue)
    (h : transformToRedmineIssue w.parseDuration flags i = Except.ok r) :
    importIssues w flags (i :: rest) st =
      ((importIssues w flags rest (createRedmineIssue w flags r st).1).1,
        (createRedmineIssue w flags r st).2.1 ++
          [Event.create r (createRedmineIssue w flags r st).2.2, Event.sleep (2 * Second)] ++
          (importIssues w flags rest (createRedmineIssue w flags r st).1).2) := by
  rw [importIssues, h]

/-- A call of `importIssues` fetches nothing and calls `createRedmineIssue` once
for each issue, in order, with the transformed issue. -/
theorem importIssues_events {σ : Type} (w : World σ) (flags : redmineFlags)
    (issues : List SonarqubeIssue) (st : σ) :
    fetched (importIssues w flags issues st).2 = [] ∧
    fetchErrors (importIssues w flags issues st).2 = [] ∧
    (created (importIssues w flags issues st).2).map Except.ok =
      issues.map (transformToRedmineIssue w.parseDuration flags) := by
  induction issues generalizing st with
  | nil => simp [importIssues, fetched, fetchErrors, created]
  | cons i rest ih =>
    obtain ⟨r, hr⟩ : ∃ r, transformToRedmineIssue w.parseDuration flags i = Except.ok r :=
      ⟨_, transform_eq w.parseDuration flags i⟩
    rw [importIssues_cons w flags i rest st r hr]
    obtain ⟨c1, c2, c3, -⟩ := createRedmineIssue_events w flags r st
    obtain ⟨i1, i2, i3⟩ := ih (createRedmineIssue w flags r st).1
    refine ⟨?_, ?_, ?_⟩
    · simp only [fetched_append, c1, i1, fetched, List.append_nil]
    · simp only [fetchErrors_append, c2, i2, fetchErrors, List.append_nil]
    · simp only [created_append, c3, created, List.nil_append, List.map_append, List.map_cons,
        List.map_nil, i3, List.singleton_append, hr]

theorem pagesLoop_done {σ : Type} (w : World σ) (url : GoString) (flags : redmineFlags)
    (n : Int) (fuel : Nat) (i : Int) (st : σ) (h : ¬ i ≤ n) :
    pagesLoop w url flags n (fuel + 1) i st =
      { outcome := Outcome.returned none, state := st, trace := [] } := by
  simp only [pagesLoop, if_neg h]

theorem pagesLoop_error {σ : Type} (w : World σ) (url : GoString) (flags : redmineFlags)
    (n : Int) (fuel : Nat) (i : Int) (st st1 : σ) (err : GoString) (h : i ≤ n)
    (hf : getSonarqubeIssues w (url ++ go "&pageIndex=" ++ Itoa i) st = (st1, Except.error err)) :
    pagesLoop w url flags n (fuel + 1) i st =
      { outcome := Outcome.returned (some err), state := st1,
        trace := [Event.fetch (url ++ go "&pageIndex=" ++ Itoa i) (Except.error err)] } := by
  simp only [pagesLoop, if_pos h, hf]

theorem pagesLoop_ok {σ : Type} (w : World σ) (url : GoString) (flags : redmineFlags)
    (n : Int) (fuel : Nat) (i : Int) (st st1 : σ) (resp : SonarqubeResponse) (h : i ≤ n)
    (hf : getSonarqubeIssues w (url ++ go "&pageIndex=" ++ Itoa i) st = (st1, Except.ok resp)) :
    pagesLoop w url flags n (fuel + 1) i st =
      { outcome :=
          (pagesLoop w url flags n fuel (incInt i) (importIssues w flags resp.Issues st1).1).outcome
        state :=
          (pagesLoop w url flags n fuel (incInt i) (importIssues w flags resp.Issues st1).1).state
        trace := Event.fetch (url ++ go "&pageIndex=" ++ Itoa i) (Except.ok resp) ::
          (importIssues w flags resp.Issues st1).2 ++
          (pagesLoop w url flags n fuel (incInt i)
            (importIssues w flags resp.Issues st1).1).trace } := by
  simp only [pagesLoop, if_pos h, hf]

/-- Whatever the fuel, the create calls of the loop are the transformed issues
of the pages it fetched, page by page. -/
theorem pagesLoop_created {σ : Type} (w : World σ) (url : GoString) (flags : redmineFlags)
    (n : Int) (fuel : Nat) (i : Int) (st : σ) :
    (created (pagesLoop w url flags n fuel i st).trace).map Except.ok =
      (fetched (pagesLoop w url flags n fuel i st).trace).flatMap
        (fun p => p.Issues.map (transformToRedmineIssue w.parseDuration flags)) := by
  induction fuel generalizing i st with
  | zero => simp [pagesLoop, created, fetched]
  | succ fuel ih =>
    by_cases h : i ≤ n
    · rcases hf : getSonarqubeIssues w (url ++ go "&pageIndex=" ++ Itoa i) st with
        ⟨st1, err | resp⟩
      · rw [pagesLoop_error w url flags n fuel i st st1 err h hf]
        simp [created, fetched]
      · rw [pagesLoop_ok w url flags n fuel i st st1 resp h hf]
        obtain ⟨i1, -, i3⟩ := importIssues_events w flags resp.Issues st1
        simp only [created_cons_fetch, fetched_cons_ok, created_append, fetched_append, i1,
          List.nil_append, List.map_append, i3, ih, List.flatMap_cons]
        rw [List.flatMap_append]
        simp only [List.flatMap_cons, List.flatMap_nil, List.append_nil]
    · rw [pagesLoop_done w url flags n fuel i st h]
      simp [created, fetched]

/-- Whatever the fuel, either no fetch of the loop has failed and the loop has
ended normally or is still running, or the loop has returned the error of a
failed fetch, which is the last thing it did and the only fetch that failed. -/
theorem pagesLoop_errors {σ : Type} (w : World σ) (url : GoString) (flags : redmineFlags)
    (n : Int) (fuel : Nat) (i : Int) (st : σ) :
    (fetchErrors (pagesLoop w url flags n fuel i st).trace = [] ∧
      ((pagesLoop w url flags n fuel i st).outcome = Outcome.returned none ∨
        (pagesLoop w url flags n fuel i st).outcome = Outcome.running)) ∨
    (∃ e u pre, (pagesLoop w url flags n fuel i st).outcome = Outcome.returned (some e) ∧
      (pagesLoop w url flags n fuel i st).trace = pre ++ [Event.fetch u (Except.error e)] ∧
      fetchErrors pre = []) := by
  induction fuel generalizing i st with
  | zero => left; simp [pagesLoop, fetchErrors]
  | succ fuel ih =>
    by_cases h : i ≤ n
    · rcases hf : getSonarqubeIssues w (url ++ go "&pageIndex=" ++ Itoa i) st with
        ⟨st1, err | resp⟩
      · right
        rw [pagesLoop_error w url flags n fuel i st st1 err h hf]
        exact ⟨err, _, [], rfl, rfl, rfl⟩
      · rw [pagesLoop_ok w url flags n fuel i st st1 resp h hf]
        obtain ⟨-, i2, -⟩ := importIssues_events w flags resp.Issues st1
        rcases ih (incInt i) (importIssues w flags resp.Issues st1).1 with
          ⟨h1, h2⟩ | ⟨e, u, pre, h1, h2, h3⟩
        · left
          refine ⟨?_, h2⟩
          show fetchErrors (_ :: (_ ++ _)) = []
          simp only [fetchErrors_cons_ok, fetchErrors_append, i2, h1, List.append_nil]
        · right
          refine ⟨e, u, Event.fetch (url ++ go "&pageIndex=" ++ Itoa i) (Except.ok resp) ::
            (importIssues w flags resp.Issues st1).2 ++ pre, h1, ?_, ?_⟩
          · show _ :: (_ ++ _) = _
            rw [h2]
            simp
          · show fetchErrors (_ :: (_ ++ _)) = []
            simp only [fetchErrors_cons_ok, fetchErrors_append, i2, h3, List.append_nil]
    · left
      rw [pagesLoop_done w url flags n fuel i st h]
      simp [fetchErrors]

/-- When the bound is not the largest `int`, the loop ends within
`n + 1 - i` rounds. -/
theorem pagesLoop_terminates {σ : Type} (w : World σ) (url : GoString) (flags : redmineFlags)
    (n : Int) (hn : n < maxInt) (k : Nat) (fuel : Nat) (i : Int) (st : σ)
    (hk : n + 1 - i ≤ k) (hfuel : k < fuel) :
    (pagesLoop w url flags n fuel i st).outcome ≠ Outcome.running := by
  induction k generalizing fuel i st with
  | zero =>
    obtain ⟨f, rfl⟩ : ∃ f, fuel = f + 1 := ⟨fuel - 1, by omega⟩
    rw [pagesLoop_done w url flags n f i st (by omega)]
    simp
  | succ k ih =>
    obtain ⟨f, rfl⟩ : ∃ f, fuel = f + 1 := ⟨fuel - 1, by omega⟩
    by_cases h : i ≤ n
    · rcases hf : getSonarqubeIssues w (url ++ go "&pageIndex=" ++ Itoa i) st with
        ⟨st1, err | resp⟩
      · rw [pagesLoop_error w url flags n f i st st1 err h hf]
        simp
      · rw [pagesLoop_ok w url flags n f i st st1 resp h hf]
        have hinc : incInt i = i + 1 := by
          unfold incInt
          rw [if_neg (by omega)]
        rw [hinc]
        exact ih f (i + 1) _ (by push_cast at hk ⊢; omega) (by omega)
    · rw [pagesLoop_done w url flags n f i st h]
      simp

/-- When the bound is the largest `int` and every fetch succeeds, the loop
never ends: the counter wraps around at the bound. -/
theorem pagesLoop_diverges {σ : Type} (w : World σ) (url : GoString) (flags : redmineFlags)
    (hw : ∀ u st, ∃ st1 resp, getSonarqubeIssues w u st = (st1, Except.ok resp))
    (fuel : Nat) (i : Int) (st : σ) (hi : i ≤ maxInt) :
    (pagesLoop w url flags maxInt fuel i st).outcome = Outcome.running := by
  induction fuel generalizing i st with
  | zero => simp [pagesLoop]
  | succ fuel ih =>
    obtain ⟨st1, resp, hf⟩ := hw (url ++ go "&pageIndex=" ++ Itoa i) st
    rw [pagesLoop_ok w url flags maxInt fuel i st st1 resp hi hf]
    apply ih
    unfold incInt
    split
    · decide
    · omega

theorem run_fetch_error {σ : Type} (w : World σ) (fuel : Nat) (url : GoString)
    (flags : redmineFlags) (st st1 : σ) (err : GoString)
    (hf : getSonarqubeIssues w url st = (st1, Except.error err)) :
    run w fuel url flags st =
      { outcome := Outcome.returned (some err), state := st1,
        trace := [Event.fetch url (Except.error err)] } := by
  simp only [run, hf]

theorem run_divide_by_zero {σ : Type} (w : World σ) (fuel : Nat) (url : GoString)
    (flags : redmineFlags) (st st1 : σ) (resp : SonarqubeResponse)
    (hf : getSonarqubeIssues w url st = (st1, Except.ok resp))
    (hn : numPages resp.Paging = none) :
    run w fuel url flags st =
      { outcome := Outcome.panicked (go "runtime error: integer divide by zero"),
        state := (importIssues w flags resp.Issues st1).1,
        trace := Event.fetch url (Except.ok resp) :: (importIssues w flags resp.Issues st1).2 } := by
  simp only [run, hf, hn]

theorem run_pages {σ : Type} (w : World σ) (fuel : Nat) (url : GoString)
    (flags : redmineFlags) (st st1 : σ) (resp : SonarqubeResponse) (n : Nat)
    (hf : getSonarqubeIssues w url st = (st1, Except.ok resp))
    (hn : numPages resp.Paging = some n) :
    run w fuel url flags st =
      { outcome := (pagesLoop w url flags (toInt n) fuel 2
          (importIssues w flags resp.Issues st1).1).outcome
        state := (pagesLoop w url flags (toInt n) fuel 2
          (importIssues w flags resp.Issues st1).1).state
        trace := Event.fetch url (Except.ok resp) :: (importIssues w flags resp.Issues st1).2 ++
          (pagesLoop w url flags (toInt n) fuel 2
            (importIssues w flags resp.Issues st1).1).trace } := by
  simp only [run, hf, hn]

/-- Whatever the fuel, the create calls of a run are the transformed issues of
the pages it fetched, page by page and issue by issue. -/
theorem run_created {σ : Type} (w : World σ) (fuel : Nat) (url : GoString)
    (flags : redmineFlags) (st : σ) :
    (created (run w fuel url flags st).trace).map Except.ok =
      (fetched (run w fuel url flags st).trace).flatMap
        (fun p => p.Issues.map (transformToRedmineIssue w.parseDuration flags)) := by
  rcases hf : getSonarqubeIssues w url st with ⟨st1, err | resp⟩
  · rw [run_fetch_error w fuel url flags st st1 err hf]
    rfl
  · obtain ⟨i1, -, i3⟩ := importIssues_events w flags resp.Issues st1
    rcases hn : numPages resp.Paging with _ | n
    · rw [run_divide_by_zero w fuel url flags st st1 resp hf hn]
      simp only [created_cons_fetch, fetched_cons_ok, i1, i3, List.flatMap_cons,
        List.flatMap_nil, List.append_nil]
    · rw [run_pages w fuel url flags st st1 resp n hf hn]
      simp only [created_cons_fetch, fetched_cons_ok, created_append, fetched_append, i1,
        List.nil_append, List.map_append, i3, pagesLoop_created, List.flatMap_cons]
      rw [List.flatMap_append]
      simp only [List.flatMap_cons, List.flatMap_nil, List.append_nil]

/-- Whatever the fuel, a run in which no fetch has failed has ended normally,
has stopped on the division, or is still running; otherwise it has returned the
error of the one fetch that failed, which is the last thing it did. -/
theorem run_errors {σ : Type} (w : World σ) (fuel : Nat) (url : GoString)
    (flags : redmineFlags) (st : σ) :
    (fetchErrors (run w fuel url flags st).trace = [] ∨
      ∃ e u pre, (run w fuel url flags st).outcome = Outcome.returned (some e) ∧
        (run w fuel url flags st).trace = pre ++ [Event.fetch u (Except.error e)] ∧
        fetchErrors pre = []) ∧
    (fetchErrors (run w fuel url flags st).trace = [] →
      ∀ e, (run w fuel url flags st).outcome ≠ Outcome.returned (some e)) := by
  rcases hf : getSonarqubeIssues w url st with ⟨st1, err | resp⟩
  · rw [run_fetch_error w fuel url flags st st1 err hf]
    refine ⟨Or.inr ⟨err, url, [], rfl, rfl, rfl⟩, ?_⟩
    intro h
    simp [fetchErrors] at h
  · obtain ⟨-, i2, -⟩ := importIssues_events w flags resp.Issues st1
    rcases hn : numPages resp.Paging with _ | n
    · rw [run_divide_by_zero w fuel url flags st st1 resp hf hn]
      refine ⟨Or.inl ?_, ?_⟩
      · simp only [fetchErrors_cons_ok, i2]
      · intro _ e
        simp
    · rw [run_pages w fuel url flags st st1 resp n hf hn]
      rcases pagesLoop_errors w url flags (toInt n) fuel 2 (importIssues w flags resp.Issues st1).1
        with ⟨h1, h2⟩ | ⟨e, u, pre, h1, h2, h3⟩
      · have hno : ∀ e, (pagesLoop w url flags (toInt n) fuel 2
            (importIssues w flags resp.Issues st1).1).outcome ≠ Outcome.returned (some e) := by
          intro e he
          rcases h2 with h2 | h2 <;> rw [h2] at he <;> simp at he
        refine ⟨Or.inl ?_, fun _ => hno⟩
        show fetchErrors (_ :: (_ ++ _)) = []
        simp only [fetchErrors_cons_ok, fetchErrors_append, i2, h1, List.append_nil]
      · have hne : fetchErrors (Event.fetch url (Except.ok resp) ::
            (importIssues w flags resp.Issues st1).2 ++
            (pagesLoop w url flags (toInt n) fuel 2
              (importIssues w flags resp.Issues st1).1).trace) ≠ [] := by
          show fetchErrors (_ :: (_ ++ _)) ≠ []
          rw [h2]
          simp [fetchErrors_cons_ok, fetchErrors_append, fetchErrors_cons_error]
        refine ⟨Or.inr ⟨e, u, Event.fetch url (Except.ok resp) ::
          (importIssues w flags resp.Issues st1).2 ++ pre, h1, ?_, ?_⟩, fun h => absurd h hne⟩
        · show _ :: (_ ++ _) = _
          rw [h2]
          simp
        · show fetchErrors (_ :: (_ ++ _)) = []
          simp only [fetchErrors_cons_ok, fetchErrors_append, i2, h3, List.append_nil]

theorem posted_cons_create (i : RedmineIssue) (r : Option GoString) (es : List Event) :
    posted (Event.create i r :: es) = posted es := rfl

theorem posted_cons_sleep (d : Duration) (es : List Event) :
    posted (Event.sleep d :: es) = posted es := rfl

/-- When the request can be built, a call of `createRedmineIssue` sends exactly
one POST request, whatever the answer. -/
theorem createRedmineIssue_posted {σ : Type} (w : World σ) (flags : redmineFlags)
    (issue : RedmineIssue) (st : σ) (hm : ∀ r, ∃ b, w.jsonMarshal r = Except.ok b)
    (hn : w.newRequest (flags.URL ++ go "/issues.json") = none) :
    (posted (createRedmineIssue w flags issue st).2.1).length = 1 := by
  obtain ⟨body, hb⟩ := hm { Issue := issue }
  rcases h : w.clientDo st (flags.URL ++ go "/issues.json")
    [(go "Content-Type", go "application/json"), (go "X-Redmine-API-Key", flags.apiKey)]
    body with ⟨st1, e | code⟩
  · simp only [createRedmineIssue, hb, hn, h, posted, List.length_cons, List.length_nil]
  · by_cases hc : code ≥ 300 <;>
      simp only [createRedmineIssue, hb, hn, h, hc, if_true, if_false, posted,
        List.length_cons, List.length_nil]

theorem importIssues_posted {σ : Type} (w : World σ) (flags : redmineFlags)
    (issues : List SonarqubeIssue) (st : σ) (hm : ∀ r, ∃ b, w.jsonMarshal r = Except.ok b)
    (hn : w.newRequest (flags.URL ++ go "/issues.json") = none) :
    (posted (importIssues w flags issues st).2).length = issues.length := by
  induction issues generalizing st with
  | nil => simp [importIssues, posted]
  | cons i rest ih =>
    obtain ⟨r, hr⟩ : ∃ r, transformToRedmineIssue w.parseDuration flags i = Except.ok r :=
      ⟨_, transform_eq w.parseDuration flags i⟩
    rw [importIssues_cons w flags i rest st r hr]
    simp only [posted_append, List.length_append, createRedmineIssue_posted w flags r st hm hn,
      ih, posted_cons_create, posted_cons_sleep, posted, List.length_nil, List.length_cons]
    omega

theorem pagesLoop_posted {σ : Type} (w : World σ) (url : GoString) (flags : redmineFlags)
    (n : Int) (fuel : Nat) (i : Int) (st : σ) (hm : ∀ r, ∃ b, w.jsonMarshal r = Except.ok b)
    (hn : w.newRequest (flags.URL ++ go "/issues.json") = none) :
    (posted (pagesLoop w url flags n fuel i st).trace).length =
      ((fetched (pagesLoop w url flags n fuel i st).trace).flatMap (fun p => p.Issues)).length := by
  induction fuel generalizing i st with
  | zero => simp [pagesLoop, posted, fetched]
  | succ fuel ih =>
    by_cases h : i ≤ n
    · rcases hf : getSonarqubeIssues w (url ++ go "&pageIndex=" ++ Itoa i) st with
        ⟨st1, err | resp⟩
      · rw [pagesLoop_error w url flags n fuel i st st1 err h hf]
        simp [posted, fetched]
      · rw [pagesLoop_ok w url flags n fuel i st st1 resp h hf]
        obtain ⟨i1, -, -⟩ := importIssues_events w flags resp.Issues st1
        simp only [posted_cons_fetch, fetched_cons_ok, posted_append, fetched_append, i1,
          List.nil_append, List.length_append, importIssues_posted w flags _ _ hm hn, ih,
          List.flatMap_cons]
        rw [List.flatMap_append]
        simp only [List.flatMap_cons, List.flatMap_nil, List.append_nil, List.length_append]
    · rw [pagesLoop_done w url flags n fuel i st h]
      simp [posted, fetched]

theorem run_posted {σ : Type} (w : World σ) (fuel : Nat) (url : GoString)
    (flags : redmineFlags) (st : σ) (hm : ∀ r, ∃ b, w.jsonMarshal r = Except.ok b)
    (hn : w.newRequest (flags.URL ++ go "/issues.json") = none) :
    (posted (run w fuel url flags st).trace).length =
      ((fetched (run w fuel url flags st).trace).flatMap (fun p => p.Issues)).length := by
  rcases hf : getSonarqubeIssues w url st with ⟨st1, err | resp⟩
  · rw [run_fetch_error w fuel url flags st st1 err hf]
    rfl
  · obtain ⟨i1, -, -⟩ := importIssues_events w flags resp.Issues st1
    rcases hp : numPages resp.Paging with _ | n
    · rw [run_divide_by_zero w fuel url flags st st1 resp hf hp]
      simp only [posted_cons_fetch, fetched_cons_ok, i1, List.flatMap_cons, List.flatMap_nil,
        List.append_nil, importIssues_posted w flags _ _ hm hn]
    · rw [run_pages w fuel url flags st st1 resp n hf hp]
      simp only [posted_cons_fetch, fetched_cons_ok, posted_append, fetched_append, i1,
        List.nil_append, List.length_append, importIssues_posted w flags _ _ hm hn,
        pagesLoop_posted w url flags _ _ _ _ hm hn, List.flatMap_cons]
      rw [List.flatMap_append]
      simp only [List.flatMap_cons, List.flatMap_nil, List.append_nil, List.length_append]

theorem toInt_le_maxInt (x : Nat) : toInt x ≤ maxInt := by
  unfold toInt maxInt uint64Mod
  have : x % 2 ^ 64 < 2 ^ 64 := Nat.mod_lt _ (by norm_num)
  split <;> omega

theorem toInt_lt_maxInt (x : Nat) (h : x % uint64Mod ≠ 2 ^ 63 - 1) : toInt x < maxInt := by
  unfold toInt maxInt
  unfold uint64Mod at h ⊢
  have : x % 2 ^ 64 < 2 ^ 64 := Nat.mod_lt _ (by norm_num)
  split <;> omega

/-- C5 (amended): for every search URL, configuration and behaviour of the two
remote services in which page 1 is fetched, reports a page size above 0 and
does not announce a page count `T div P + 1` of exactly `2 ^ 63 - 1`, a run in
which no page fetch fails returns no error, and it has called
`createRedmineIssue` exactly once for each source issue of every page it
fetched, with the transformed issue, in page order and then issue order,
whatever each create call returned; when the request can be built each of
these calls sent one POST request. -/
theorem run_creates_every_issue {σ : Type} (w : World σ) (url : GoString)
    (flags : redmineFlags) (st st1 : σ) (resp : SonarqubeResponse)
    (h1 : getSonarqubeIssues w url st = (st1, Except.ok resp))
    (hwf : resp.Paging.WF) (hP : 0 < resp.Paging.PageSize)
    (hN : resp.Paging.Total / resp.Paging.PageSize + 1 ≠ 2 ^ 63 - 1) :
    ∃ N, ∀ fuel, N ≤ fuel → fetchErrors (run w fuel url flags st).trace = [] →
      (run w fuel url flags st).outcome = Outcome.returned none ∧
      (created (run w fuel url flags st).trace).map Except.ok =
        (fetched (run w fuel url flags st).trace).flatMap
          (fun p => p.Issues.map (transformToRedmineIssue w.parseDuration flags)) ∧
      ((∀ r, ∃ b, w.jsonMarshal r = Except.ok b) →
        w.newRequest (flags.URL ++ go "/issues.json") = none →
        (posted (run w fuel url flags st).trace).length =
          ((fetched (run w fuel url flags st).trace).flatMap (fun p => p.Issues)).length) := by
  have hnum : numPages resp.Paging =
      some ((resp.Paging.Total / resp.Paging.PageSize + 1) % uint64Mod) := by
    unfold numPages
    rw [if_neg (by omega)]
  have hbound : toInt ((resp.Paging.Total / resp.Paging.PageSize + 1) % uint64Mod) < maxInt := by
    apply toInt_lt_maxInt
    rw [Nat.mod_mod]
    obtain ⟨-, -, hT⟩ := hwf
    unfold uint64Mod at hT ⊢
    have hle : resp.Paging.Total / resp.Paging.PageSize ≤ resp.Paging.Total :=
      Nat.div_le_self _ _
    by_cases hlt : resp.Paging.Total / resp.Paging.PageSize + 1 < 2 ^ 64
    · rw [Nat.mod_eq_of_lt hlt]
      exact hN
    · have : resp.Paging.Total / resp.Paging.PageSize + 1 = 2 ^ 64 := by omega
      rw [this]
      norm_num
  refine ⟨(toInt ((resp.Paging.Total / resp.Paging.PageSize + 1) % uint64Mod)).toNat + 1, ?_⟩
  intro fuel hfuel hno
  refine ⟨?_, run_created w fuel url flags st, run_posted w fuel url flags st⟩
  have hrun := run_pages w fuel url flags st st1 resp _ h1 hnum
  have hterm := pagesLoop_terminates w url flags _ hbound
    (toInt ((resp.Paging.Total / resp.Paging.PageSize + 1) % uint64Mod)).toNat fuel 2
    (importIssues w flags resp.Issues st1).1 (by omega) (by omega)
  have hne := (run_errors w fuel url flags st).2 hno
  rw [hrun] at hne ⊢
  simp only at hne ⊢
  rcases pagesLoop_errors w url flags
      (toInt ((resp.Paging.Total / resp.Paging.PageSize + 1) % uint64Mod)) fuel 2
      (importIssues w flags resp.Issues st1).1 with ⟨-, h2 | h2⟩ | ⟨e, -, -, h2, -, -⟩
  · exact h2
  · exact absurd h2 hterm
  · exact absurd h2 (hne e)

set_option maxRecDepth 100000 in
/-- Witness of `run_creates_every_issue`: page 1 holds 2 issues with page size 2
and total 3, page 2 holds 1 issue, and the tracker answers the second POST with
404; the run returns no error after 3 create calls and 3 POST requests. -/
theorem run_creates_every_issue_witness :
    getSonarqubeIssues exampleWorld exampleURL 0 = (0, Except.ok examplePage1) ∧
    examplePage1.Paging.WF ∧ 0 < examplePage1.Paging.PageSize ∧
    examplePage1.Paging.Total / examplePage1.Paging.PageSize + 1 ≠ 2 ^ 63 - 1 ∧
    (∃ N, ∀ fuel, N ≤ fuel →
      fetchErrors (run exampleWorld fuel exampleURL exampleFlags 0).trace = [] →
      (run exampleWorld fuel exampleURL exampleFlags 0).outcome = Outcome.returned none ∧
      (created (run exampleWorld fuel exampleURL exampleFlags 0).trace).map Except.ok =
        (fetched (run exampleWorld fuel exampleURL exampleFlags 0).trace).flatMap
          (fun p => p.Issues.map
            (transformToRedmineIssue exampleWorld.parseDuration exampleFlags)) ∧
      ((∀ r, ∃ b, exampleWorld.jsonMarshal r = Except.ok b) →
        exampleWorld.newRequest (exampleFlags.URL ++ go "/issues.json") = none →
        (posted (run exampleWorld fuel exampleURL exampleFlags 0).trace).length =
          ((fetched (run exampleWorld fuel exampleURL exampleFlags 0).trace).flatMap
            (fun p => p.Issues)).length)) ∧
    (run exampleWorld 2 exampleURL exampleFlags 0).outcome = Outcome.returned none ∧
    fetched (run exampleWorld 2 exampleURL exampleFlags 0).trace = [examplePage1, examplePage2] ∧
    fetchErrors (run exampleWorld 2 exampleURL exampleFlags 0).trace = [] ∧
    posted (run exampleWorld 2 exampleURL exampleFlags 0).trace =
      [go "S1: one - a.go", go "S2: two - b.go", go "S3: three - c.go"] ∧
    createErrors (run exampleWorld 2 exampleURL exampleFlags 0).trace =
      [none, some (go "response status code 404"), none] :=
  have h1 : getSonarqubeIssues exampleWorld exampleURL 0 = (0, Except.ok examplePage1) := by
    decide
  have hwf : examplePage1.Paging.WF := by
    simp [SonarqubePaging.WF, examplePage1, uint64Mod]
  have hP : 0 < examplePage1.Paging.PageSize := by decide
  have hN : examplePage1.Paging.Total / examplePage1.Paging.PageSize + 1 ≠ 2 ^ 63 - 1 := by
    decide
  ⟨h1, hwf, hP, hN,
    run_creates_every_issue exampleWorld exampleURL exampleFlags 0 0 examplePage1 h1 hwf hP hN,
    by decide, by decide, by decide, by decide, by decide⟩

/-- C5 (as stated, refuted): in a world where every page fetch succeeds and page
1 reports page size 1 and total `2 ^ 63 - 2`, so that `int(numPages)` is the
largest `int`, the run never returns: the loop counter wraps around. -/
theorem run_never_returns_at_max_int :
    (∀ u st, getSonarqubeIssues (constantWorld hugePage) u st = (st, Except.ok hugePage)) ∧
    0 < hugePage.Paging.PageSize ∧ hugePage.Paging.WF ∧
    (∀ fuel, (run (constantWorld hugePage) fuel exampleURL exampleFlags 0).outcome =
      Outcome.running) ∧
    ¬ ∃ fuel, (run (constantWorld hugePage) fuel exampleURL exampleFlags 0).outcome =
      Outcome.returned none := by
  have hget : ∀ u st,
      getSonarqubeIssues (constantWorld hugePage) u st = (st, Except.ok hugePage) := by
    intro u st
    simp [getSonarqubeIssues, constantWorld, exampleWorld]
  have hnum : numPages hugePage.Paging = some (2 ^ 63 - 1) := by decide
  have hint : toInt (2 ^ 63 - 1) = maxInt := by decide
  have hrun : ∀ fuel, (run (constantWorld hugePage) fuel exampleURL exampleFlags 0).outcome =
      Outcome.running := by
    intro fuel
    rw [run_pages (constantWorld hugePage) fuel exampleURL exampleFlags 0 0 hugePage _
      (hget _ _) hnum, hint]
    exact pagesLoop_diverges (constantWorld hugePage) exampleURL exampleFlags
      (fun u st => ⟨st, hugePage, hget u st⟩) fuel 2 _ (by decide)
  refine ⟨hget, by decide, by simp [SonarqubePaging.WF, hugePage, uint64Mod], hrun, ?_⟩
  rintro ⟨fuel, h⟩
  rw [hrun fuel] at h
  exact absurd h (by decide)

/-- When the fetches of the next `m` pages succeed and the fetch after them
fails, the loop returns that error within `m + 1` rounds, after exactly `m`
further pages. -/
theorem pagesLoop_reaches_failure {σ : Type} (w : World σ) (url : GoString)
    (flags : redmineFlags) (n : Int) (hn : n ≤ maxInt) (e : GoString) (m : Nat) (fuel : Nat)
    (i : Int) (st : σ)
    (hok : ∀ j : Int, i ≤ j → j < i + m → ∀ st1, ∃ st2 r,
      getSonarqubeIssues w (url ++ go "&pageIndex=" ++ Itoa j) st1 = (st2, Except.ok r))
    (hfail : ∀ st1, ∃ st2,
      getSonarqubeIssues w (url ++ go "&pageIndex=" ++ Itoa (i + m)) st1 = (st2, Except.error e))
    (hin : i + m ≤ n) (hfuel : m < fuel) :
    (pagesLoop w url flags n fuel i st).outcome = Outcome.returned (some e) ∧
    (fetched (pagesLoop w url flags n fuel i st).trace).length = m ∧
    fetchErrors (pagesLoop w url flags n fuel i st).trace = [e] := by
  induction m generalizing fuel i st with
  | zero =>
    obtain ⟨f, rfl⟩ : ∃ f, fuel = f + 1 := ⟨fuel - 1, by omega⟩
    obtain ⟨st2, hf⟩ := hfail st
    simp only [Nat.cast_zero, add_zero] at hf hin
    rw [pagesLoop_error w url flags n f i st st2 e hin hf]
    exact ⟨rfl, rfl, rfl⟩
  | succ m ih =>
    obtain ⟨f, rfl⟩ : ∃ f, fuel = f + 1 := ⟨fuel - 1, by omega⟩
    have hi : i ≤ n := by push_cast at hin; omega
    obtain ⟨st2, r, hf⟩ := hok i (le_refl _) (by push_cast; omega) st
    rw [pagesLoop_ok w url flags n f i st st2 r hi hf]
    have hinc : incInt i = i + 1 := by
      unfold incInt
      rw [if_neg (by push_cast at hin; omega)]
    rw [hinc]
    obtain ⟨i1, i2, -⟩ := importIssues_events w flags r.Issues st2
    have hstep := ih f (i + 1) (importIssues w flags r.Issues st2).1
      (fun j h1 h2 => hok j (by omega) (by push_cast; omega))
      (by
        intro st1
        have := hfail st1
        rwa [show i + ((m + 1 : Nat) : Int) = i + 1 + (m : Int) by push_cast; ring] at this)
      (by push_cast at hin; omega) (by omega)
    obtain ⟨h1, h2, h3⟩ := hstep
    refine ⟨h1, ?_, ?_⟩
    · show (fetched (_ :: (_ ++ _))).length = m + 1
      simp only [fetched_cons_ok, fetched_append, i1, List.nil_append, List.length_cons, h2]
    · show fetchErrors (_ :: (_ ++ _)) = [e]
      simp only [fetchErrors_cons_ok, fetchErrors_append, i2, List.nil_append, h3]

/-- A fetch succeeds exactly when the URL parses, the transport succeeds, the
status is 200, the body is read and it decodes. -/
theorem getSonarqubeIssues_ok_iff {σ : Type} (w : World σ) (u : GoString) (st st1 : σ)
    (r : SonarqubeResponse) :
    getSonarqubeIssues w u st = (st1, Except.ok r) ↔
      ∃ parsed body, w.urlParse u = Except.ok parsed ∧
        w.httpGet st parsed = (st1, Except.ok ⟨200, Except.ok body⟩) ∧
        w.jsonUnmarshal body = Except.ok r := by
  rcases hu : w.urlParse u with e | parsed
  · have hval : getSonarqubeIssues w u st = (st, Except.error (go "sonarqube url: " ++ e)) := by
      simp only [getSonarqubeIssues, hu]
    rw [hval]
    constructor
    · intro h
      simp at h
    · rintro ⟨p, b, hp, -⟩
      simp at hp
  · rcases hg : w.httpGet st parsed with ⟨st2, e | ⟨code, body⟩⟩
    · have hval : getSonarqubeIssues w u st =
          (st2, Except.error (go "sonarqube server: " ++ e)) := by
        simp only [getSonarqubeIssues, hu, hg]
      rw [hval]
      constructor
      · intro h
        simp at h
      · rintro ⟨p, b, hp, hget, -⟩
        obtain rfl : parsed = p := by simpa using hp
        rw [hg] at hget
        simp at hget
    · by_cases hc : code = 200
      · subst hc
        rcases body with e | b
        · have hval : getSonarqubeIssues w u st =
              (st2, Except.error (go "sonarqube response body: " ++ e)) := by
            simp only [getSonarqubeIssues, hu, hg]
            rw [if_neg (by simp)]
          rw [hval]
          constructor
          · intro h
            simp at h
          · rintro ⟨p, b, hp, hget, -⟩
            obtain rfl : parsed = p := by simpa using hp
            rw [hg] at hget
            simp at hget
        · rcases hj : w.jsonUnmarshal b with e | r2
          · have hval : getSonarqubeIssues w u st =
                (st2, Except.error (go "sonarqube response body: " ++ e)) := by
              simp only [getSonarqubeIssues, hu, hg]
              rw [if_neg (by simp)]
              simp only [hj]
            rw [hval]
            constructor
            · intro h
              simp at h
            · rintro ⟨p, b2, hp, hget, hdec⟩
              obtain rfl : parsed = p := by simpa using hp
              rw [hg] at hget
              simp only [Prod.mk.injEq, Except.ok.injEq, HttpResponse.mk.injEq, true_and] at hget
              obtain ⟨-, rfl⟩ := hget
              rw [hj] at hdec
              simp at hdec
          · have hval : getSonarqubeIssues w u st = (st2, Except.ok r2) := by
              simp only [getSonarqubeIssues, hu, hg]
              rw [if_neg (by simp)]
              simp only [hj]
            rw [hval]
            constructor
            · intro h
              simp only [Prod.mk.injEq, Except.ok.injEq] at h
              obtain ⟨rfl, rfl⟩ := h
              exact ⟨parsed, b, rfl, hg, hj⟩
            · rintro ⟨p, b2, hp, hget, hdec⟩
              obtain rfl : parsed = p := by simpa using hp
              rw [hg] at hget
              simp only [Prod.mk.injEq, Except.ok.injEq, HttpResponse.mk.injEq, true_and] at hget
              obtain ⟨rfl, rfl⟩ := hget
              rw [hj] at hdec
              simp only [Except.ok.injEq] at hdec
              rw [hdec]
      · have hval : getSonarqubeIssues w u st =
            (st2, Except.error (go "sonarqube server response status code is not 200")) := by
          simp only [getSonarqubeIssues, hu, hg]
          rw [if_pos hc]
        rw [hval]
        constructor
        · intro h
          simp at h
        · rintro ⟨p, b, hp, hget, -⟩
          obtain rfl : parsed = p := by simpa using hp
          rw [hg] at hget
          simp only [Prod.mk.injEq, Except.ok.injEq, HttpResponse.mk.injEq] at hget
          exact absurd hget.2.1 hc

/-- C6: a failed page fetch in a run makes `run` return that fetch error; the
failed fetch is the last thing the run did and the only fetch that failed, and
the create calls made are those for the issues of the pages fetched before.  A
fetch succeeds exactly when the URL parses, the transport succeeds, the status
is 200, the body is read and it decodes.  When page 1 is answered with status
500, `run` returns an error and no create call and no POST request is made.
When the fetch of page 1 fails the run ends after that fetch alone, and when the
fetches of pages 2 to `k - 1` succeed and the fetch of page `k`, within the
page count, fails, `k - 1` rounds of the loop are enough for `run` to return
that error after exactly `k - 1` fetched pages. -/
theorem run_stops_at_failed_fetch :
    (∀ (σ : Type) (w : World σ) (fuel : Nat) (url : GoString) (flags : redmineFlags) (st : σ)
      (u e : GoString),
      Event.fetch u (Except.error e) ∈ (run w fuel url flags st).trace →
      (run w fuel url flags st).outcome = Outcome.returned (some e) ∧
      ∃ pre, (run w fuel url flags st).trace = pre ++ [Event.fetch u (Except.error e)] ∧
        fetchErrors pre = [] ∧
        created (run w fuel url flags st).trace = created pre ∧
        (created pre).map Except.ok =
          (fetched pre).flatMap
            (fun p => p.Issues.map (transformToRedmineIssue w.parseDuration flags))) ∧
    (∀ (σ : Type) (w : World σ) (u : GoString) (st st1 : σ) (r : SonarqubeResponse),
      getSonarqubeIssues w u st = (st1, Except.ok r) ↔
        ∃ parsed body, w.urlParse u = Except.ok parsed ∧
          w.httpGet st parsed = (st1, Except.ok ⟨200, Except.ok body⟩) ∧
          w.jsonUnmarshal body = Except.ok r) ∧
    (∀ (σ : Type) (w : World σ) (fuel : Nat) (url : GoString) (flags : redmineFlags)
      (st st1 : σ) (parsed : GoString) (body : Except GoString GoString),
      w.urlParse url = Except.ok parsed →
      w.httpGet st parsed = (st1, Except.ok ⟨500, body⟩) →
      (run w fuel url flags st).outcome =
        Outcome.returned (some (go "sonarqube server response status code is not 200")) ∧
      created (run w fuel url flags st).trace = [] ∧
      posted (run w fuel url flags st).trace = []) ∧
    (∀ (σ : Type) (w : World σ) (fuel : Nat) (url : GoString) (flags : redmineFlags)
      (st st1 : σ) (e : GoString),
      getSonarqubeIssues w url st = (st1, Except.error e) →
      (run w fuel url flags st).outcome = Outcome.returned (some e) ∧
      (run w fuel url flags st).trace = [Event.fetch url (Except.error e)]) ∧
    (∀ (σ : Type) (w : World σ) (url : GoString) (flags : redmineFlags) (st st1 : σ)
      (page1 : SonarqubeResponse) (n k : Nat) (e : GoString),
      getSonarqubeIssues w url st = (st1, Except.ok page1) →
      numPages page1.Paging = some n → 2 ≤ k → (k : Int) ≤ toInt n →
      (∀ j : Int, 2 ≤ j → j < k → ∀ s1, ∃ s2 r,
        getSonarqubeIssues w (url ++ go "&pageIndex=" ++ Itoa j) s1 = (s2, Except.ok r)) →
      (∀ s1, ∃ s2,
        getSonarqubeIssues w (url ++ go "&pageIndex=" ++ Itoa k) s1 = (s2, Except.error e)) →
      ∀ fuel, k - 1 ≤ fuel →
        (run w fuel url flags st).outcome = Outcome.returned (some e) ∧
        (fetched (run w fuel url flags st).trace).length = k - 1 ∧
        fetchErrors (run w fuel url flags st).trace = [e]) := by
  refine ⟨?_, ?_, ?_, ?_, ?_⟩
  · intro σ w fuel url flags st u e hmem
    rcases (run_errors w fuel url flags st).1 with h | ⟨e1, u1, pre, ho, ht, hp⟩
    · exact absurd h (fetchErrors_of_mem u e _ hmem)
    · rw [ht] at hmem
      rcases List.mem_append.mp hmem with h | h
      · exact absurd hp (fetchErrors_of_mem u e _ h)
      · simp only [List.mem_singleton, Event.fetch.injEq, Except.error.injEq] at h
        obtain ⟨rfl, rfl⟩ := h
        have hc := run_created w fuel url flags st
        rw [ht] at hc
        have hcp : created (pre ++ [Event.fetch u (Except.error e)]) = created pre := by
          rw [created_append, created_cons_fetch]
          simp [created]
        have hfp : fetched (pre ++ [Event.fetch u (Except.error e)]) = fetched pre := by
          rw [fetched_append, fetched_cons_error]
          simp [fetched]
        rw [hcp, hfp] at hc
        refine ⟨ho, pre, ht, hp, ?_, hc⟩
        rw [ht, hcp]
  · intro σ w u st st1 r
    exact getSonarqubeIssues_ok_iff w u st st1 r
  · intro σ w fuel url flags st st1 parsed body hu hg
    have hf : getSonarqubeIssues w url st =
        (st1, Except.error (go "sonarqube server response status code is not 200")) := by
      simp only [getSonarqubeIssues, hu, hg]
      rw [if_pos (by decide)]
    rw [run_fetch_error w fuel url flags st st1 _ hf]
    exact ⟨rfl, rfl, rfl⟩
  · intro σ w fuel url flags st st1 e hf
    rw [run_fetch_error w fuel url flags st st1 e hf]
    exact ⟨rfl, rfl⟩
  · intro σ w url flags st st1 page1 n k e hf hnum hk hkn hok hfail fuel hfuel
    rw [run_pages w fuel url flags st st1 page1 n hf hnum]
    obtain ⟨i1, i2, -⟩ := importIssues_events w flags page1.Issues st1
    obtain ⟨h1, h2, h3⟩ := pagesLoop_reaches_failure w url flags (toInt n) (toInt_le_maxInt n) e
      (k - 2) fuel 2 (importIssues w flags page1.Issues st1).1
      (fun j hj1 hj2 => hok j hj1 (by omega))
      (by
        intro s1
        have := hfail s1
        rwa [show (k : Int) = 2 + ((k - 2 : Nat) : Int) by omega] at this)
      (by omega) (by omega)
    refine ⟨h1, ?_, ?_⟩
    · show (fetched (_ :: (_ ++ _))).length = k - 1
      simp only [fetched_cons_ok, fetched_append, i1, List.nil_append, List.length_cons, h2]
      omega
    · show fetchErrors (_ :: (_ ++ _)) = [e]
      simp only [fetchErrors_cons_ok, fetchErrors_append, i2, List.nil_append, h3]

set_option maxRecDepth 100000 in
/-- Witness of `run_stops_at_failed_fetch`: the source service answers page 1
with status 500; the run returns the fetch error and makes no create call. -/
theorem run_stops_at_failed_fetch_witness :
    (run failingWorld 3 exampleURL exampleFlags 0).outcome =
      Outcome.returned (some (go "sonarqube server response status code is not 200")) ∧
    (∃ pre, (run failingWorld 3 exampleURL exampleFlags 0).trace =
        pre ++ [Event.fetch exampleURL
          (Except.error (go "sonarqube server response status code is not 200"))] ∧
      fetchErrors pre = [] ∧
      created (run failingWorld 3 exampleURL exampleFlags 0).trace = created pre ∧
      (created pre).map Except.ok =
        (fetched pre).flatMap
          (fun p => p.Issues.map
            (transformToRedmineIssue failingWorld.parseDuration exampleFlags))) ∧
    posted (run failingWorld 3 exampleURL exampleFlags 0).trace = [] :=
  have h := run_stops_at_failed_fetch.1 Nat failingWorld 3 exampleURL exampleFlags 0 exampleURL
    (go "sonarqube server response status code is not 200") (by decide)
  ⟨h.1, h.2, by decide⟩

/-- C10: the page count is computed for every paging block with a page size
above 0, and the division faults when the page size is 0; in a run whose first
page decodes with page size 0 the fault comes after all issues of page 1 have
been imported: the run stops with the panic after the fetch of page 1 and one
create call for each of its issues. -/
theorem run_divides_by_page_size :
    (∀ p : SonarqubePaging, 0 < p.PageSize → ∃ n, numPages p = some n) ∧
    (∀ p : SonarqubePaging, p.PageSize = 0 → numPages p = none) ∧
    (∀ (σ : Type) (w : World σ) (fuel : Nat) (url : GoString) (flags : redmineFlags)
      (st st1 : σ) (resp : SonarqubeResponse),
      getSonarqubeIssues w url st = (st1, Except.ok resp) → resp.Paging.PageSize = 0 →
      (run w fuel url flags st).outcome =
        Outcome.panicked (go "runtime error: integer divide by zero") ∧
      (run w fuel url flags st).trace =
        Event.fetch url (Except.ok resp) :: (importIssues w flags resp.Issues st1).2 ∧
      (created (run w fuel url flags st).trace).map Except.ok =
        resp.Issues.map (transformToRedmineIssue w.parseDuration flags)) := by
  refine ⟨?_, ?_, ?_⟩
  · intro p hp
    refine ⟨(p.Total / p.PageSize + 1) % uint64Mod, ?_⟩
    unfold numPages
    rw [if_neg (by omega)]
  · intro p hp
    unfold numPages
    rw [if_pos hp]
  · intro σ w fuel url flags st st1 resp hf hp
    have hn : numPages resp.Paging = none := by
      unfold numPages
      rw [if_pos hp]
    rw [run_divide_by_zero w fuel url flags st st1 resp hf hn]
    refine ⟨rfl, rfl, ?_⟩
    simp only [created_cons_fetch]
    exact (importIssues_events w flags resp.Issues st1).2.2

set_option maxRecDepth 100000 in
/-- Witness of `run_divides_by_page_size`: a first page of one issue with an
all-zero paging block; the run panics after one create call. -/
theorem run_divides_by_page_size_witness :
    (run (constantWorld noPagingPage) 3 exampleURL exampleFlags 0).outcome =
      Outcome.panicked (go "runtime error: integer divide by zero") ∧
    (run (constantWorld noPagingPage) 3 exampleURL exampleFlags 0).trace =
      Event.fetch exampleURL (Except.ok noPagingPage) ::
        (importIssues (constantWorld noPagingPage) exampleFlags noPagingPage.Issues 0).2 ∧
    (created (run (constantWorld noPagingPage) 3 exampleURL exampleFlags 0).trace).map Except.ok =
      noPagingPage.Issues.map
        (transformToRedmineIssue (constantWorld noPagingPage).parseDuration exampleFlags) ∧
    posted (run (constantWorld noPagingPage) 3 exampleURL exampleFlags 0).trace =
      [go "S1: one - a.go"] :=
  have h := run_divides_by_page_size.2.2 Nat (constantWorld noPagingPage) 3 exampleURL
    exampleFlags 0 0 noPagingPage (by decide) (by decide)
  ⟨h.1, h.2.1, h.2.2, by decide⟩

end SonarqubeRedmine

